import Mathlib

/-!
Verification development for the quillsidian matching/scoring engine
(`quill_server.py`, `database.py`, `config.example.py`).

The Python sources are shallowly embedded: strings are `String`/`List Char`,
Python `float` arithmetic is modelled exactly over `ℚ` (all constants in the
scorer are short decimal literals, so the rational model matches the intent of
the code), Python `None` becomes `Option`, Python exceptions become
`Except PyErr`.  Character classes of the regexes involved (`\s`, `[A-Za-z]`,
`\d`, `\w`) are modelled over their ASCII meaning, which covers every string
manipulated by the scorer.  `difflib.SequenceMatcher` is modelled by its
documented Ratcliff/Obershelp specification (longest matching block, earliest
in `a` then earliest in `b`, recursively on both sides); the CPython
"autojunk" heuristic, which only affects right-hand strings of length ≥ 200,
is outside the modelled domain and theorems that depend on ratio values are
stated for strings below that bound.
-/

namespace Quill

attribute [local semireducible] Rat.ofScientific Rat.mul Rat.add Rat.sub Rat.inv

/-- Reserved characters used by the source, written via code points so the
development stays plain ASCII. -/
def quoteChar : Char := Char.ofNat 34

/-- Apostrophe character (U+0027), used by `normalize_person_token` and
`tokenize_name`. -/
def apoChar : Char := Char.ofNat 39

/-- Double-prime character (U+2033) replaced by `compute_score`'s snippet
cleanup. -/
def dblPrimeChar : Char := Char.ofNat 8243

/-- ASCII whitespace, the domain-relevant meaning of Python's `\s` class and
of `str.strip()` for the strings the scorer manipulates. -/
def isWS (c : Char) : Bool :=
  c = Char.ofNat 32 || c = Char.ofNat 9 || c = Char.ofNat 10 ||
  c = Char.ofNat 13 || c = Char.ofNat 11 || c = Char.ofNat 12

/-- ASCII lowercase letter test. -/
def isLowerA (c : Char) : Bool := (Char.ofNat 97) ≤ c && c ≤ (Char.ofNat 122)

/-- ASCII uppercase letter test. -/
def isUpperA (c : Char) : Bool := (Char.ofNat 65) ≤ c && c ≤ (Char.ofNat 90)

/-- ASCII letter test (`[A-Za-z]`). -/
def isAlphaA (c : Char) : Bool := isLowerA c || isUpperA c

/-- ASCII digit test (`\d`). -/
def isDigitA (c : Char) : Bool := (Char.ofNat 48) ≤ c && c ≤ (Char.ofNat 57)

/-- Word character for `\b` boundaries (`[A-Za-z0-9_]`). -/
def isWordChar (c : Char) : Bool := isAlphaA c || isDigitA c || c = Char.ofNat 95

/-- Python `str.lower()` on the ASCII range. -/
def lowerChar (c : Char) : Char :=
  if isUpperA c then Char.ofNat (c.toNat + 32) else c

/-- Python `str.upper()` on the ASCII range. -/
def upperChar (c : Char) : Char :=
  if isLowerA c then Char.ofNat (c.toNat - 32) else c

def lowerL (l : List Char) : List Char := l.map lowerChar

/-- Python `s.strip()` (ASCII whitespace). -/
def stripL (l : List Char) : List Char :=
  ((l.dropWhile (fun c => isWS c)).reverse.dropWhile (fun c => isWS c)).reverse

/-- Model of `re.sub(r"\s+", " ", s)`: every maximal run of whitespace is
replaced by a single space.  The Boolean flag records whether the previous
character was part of a whitespace run. -/
def collapseWSAux : List Char → Bool → List Char
  | [], _ => []
  | c :: rest, inRun =>
    if isWS c then
      if inRun then collapseWSAux rest true
      else (Char.ofNat 32) :: collapseWSAux rest true
    else c :: collapseWSAux rest false

def collapseWSL (l : List Char) : List Char := collapseWSAux l false

/-- Python `str.replace(a, b)` for single-character arguments. -/
def charReplace (a b : Char) (l : List Char) : List Char :=
  l.map (fun c => if c = a then b else c)

/-- Python truthiness of an optional string (`None` and `""` are falsy). -/
def truthyS : Option String → Bool
  | none => false
  | some s => s ≠ ""

/-- Python `x or y` on optional strings (left operand wins when truthy). -/
def pyOrS (a b : Option String) : Option String := if truthyS a then a else b

/-- Python `x or ""` on an optional string. -/
def pyOrEmpty (a : Option String) : String := (pyOrS a (some "")).getD ""

/-- Python truthiness of an optional integer (`None` and `0` are falsy). -/
def truthyI : Option Int → Bool
  | none => false
  | some n => n ≠ 0

/-- Python `x or y` on optional integers. -/
def pyOrI (a b : Option Int) : Option Int := if truthyI a then a else b

/-- Python `x and y` on optional integers. -/
def pyAndI (a b : Option Int) : Option Int := if truthyI a then b else a

/-- Python `x or y` on plain integers (`0` is falsy). -/
def pyOrIntV (a b : Int) : Int := if a = 0 then b else a

/-- Errors a Python expression can raise in the embedded fragment. -/
inductive PyErr where
  | typeError : PyErr
  | valueError : PyErr
deriving DecidableEq, Repr

/-- Python `int(x)` on an optional integer: `int(None)` raises `TypeError`. -/
def pyInt : Option Int → Except PyErr Int
  | none => .error .typeError
  | some n => .ok n

/-- Substring test, Python `needle in hay` on strings (character level). -/
def containsSub (hay needle : List Char) : Bool :=
  (List.range (hay.length + 1)).any (fun i => needle.isPrefixOf (hay.drop i))

/-! ### difflib.SequenceMatcher model

`sequenceRatio` models `difflib.SequenceMatcher(None, a, b).ratio()` for
right-hand strings shorter than 200 characters (below the autojunk bound).
`bestMatch` realises the documented contract of `find_longest_match`: among
all maximal matching blocks pick the one starting earliest in `a`, then
earliest in `b`.  `totalMatchSize` sums the sizes of all matching blocks (the
adjacent-block merge performed by `get_matching_blocks` does not change this
sum); the fuel argument is a structural termination bound that is always
sufficient, since each recursive window is strictly smaller. -/

/-- Length of the longest common prefix of two character lists. -/
def lce : List Char → List Char → Nat
  | a :: as', b :: bs' => if a = b then lce as' bs' + 1 else 0
  | _, _ => 0

/-- Size of the matching block starting at `(i, j)`, clipped to the window
`[·, ahi) × [·, bhi)`. -/
def matchK (a b : List Char) (ahi bhi i j : Nat) : Nat :=
  min (min (lce (a.drop i) (b.drop j)) (ahi - i)) (bhi - j)

/-- Row-major enumeration of candidate block starts inside the window. -/
def windowPairs (alo ahi blo bhi : Nat) : List (Nat × Nat) :=
  (List.range' alo (ahi - alo)).flatMap
    (fun i => (List.range' blo (bhi - blo)).map (fun j => (i, j)))

/-- Longest matching block in the window; earliest in `a`, then in `b`. -/
def bestMatch (a b : List Char) (alo ahi blo bhi : Nat) : Nat × Nat × Nat :=
  (windowPairs alo ahi blo bhi).foldl
    (fun best p =>
      let k := matchK a b ahi bhi p.1 p.2
      if best.2.2 < k then (p.1, p.2, k) else best)
    (alo, blo, 0)

/-- Total size of all Ratcliff/Obershelp matching blocks in the window. -/
def totalMatchSize (a b : List Char) : Nat → Nat → Nat → Nat → Nat → Nat
  | 0, _, _, _, _ => 0
  | fuel + 1, alo, ahi, blo, bhi =>
    let m := bestMatch a b alo ahi blo bhi
    if m.2.2 = 0 then 0
    else
      m.2.2 + totalMatchSize a b fuel alo m.1 blo m.2.1 +
        totalMatchSize a b fuel (m.1 + m.2.2) ahi (m.2.1 + m.2.2) bhi

/-- Model of `difflib.SequenceMatcher(None, a, b).ratio()`. -/
def sequenceRatioL (a b : List Char) : ℚ :=
  let la := a.length
  let lb := b.length
  if la + lb = 0 then 1
  else
    (2 * (totalMatchSize a b (la + lb + 1) 0 la 0 lb) : ℚ) / (la + lb)

def sequenceRatio (a b : String) : ℚ := sequenceRatioL a.data b.data

theorem lce_self (l : List Char) : lce l l = l.length := by
  induction l with
  | nil => rfl
  | cons c rest ih => simp [lce, ih]

theorem matchK_le_a (a b : List Char) (ahi bhi i j : Nat) :
    matchK a b ahi bhi i j ≤ ahi - i := by
  unfold matchK; omega

theorem matchK_le_b (a b : List Char) (ahi bhi i j : Nat) :
    matchK a b ahi bhi i j ≤ bhi - j := by
  unfold matchK; omega

/-- Any enumerated candidate start lies inside the window. -/
theorem windowPairs_mem (alo ahi blo bhi : Nat) (p : Nat × Nat)
    (hp : p ∈ windowPairs alo ahi blo bhi) : alo ≤ p.1 ∧ blo ≤ p.2 := by
  unfold windowPairs at hp
  rcases List.mem_flatMap.mp hp with ⟨i, hi, hmap⟩
  rcases List.mem_map.mp hmap with ⟨j, hj, rfl⟩
  constructor
  · exact (List.mem_range'_1.mp hi).1
  · exact (List.mem_range'_1.mp hj).1

/-- Invariant transported along the fold that computes `bestMatch`. -/
theorem bestMatch_fold_inv (a b : List Char) (alo ahi blo bhi : Nat)
    (P : Nat × Nat × Nat → Prop)
    (l : List (Nat × Nat)) (acc : Nat × Nat × Nat)
    (hacc : P acc)
    (hl : ∀ p ∈ l, P (p.1, p.2, matchK a b ahi bhi p.1 p.2)) :
    P (l.foldl
      (fun best p =>
        let k := matchK a b ahi bhi p.1 p.2
        if best.2.2 < k then (p.1, p.2, k) else best) acc) := by
  induction l generalizing acc with
  | nil => exact hacc
  | cons hd tl ih =>
    simp only [List.foldl_cons]
    apply ih
    · by_cases hlt : acc.2.2 < matchK a b ahi bhi hd.1 hd.2
      · simpa [hlt] using hl hd (by simp)
      · simpa [hlt] using hacc
    · intro p hp; exact hl p (List.mem_cons_of_mem _ hp)

theorem bestMatch_bounds (a b : List Char) (alo ahi blo bhi : Nat) :
    alo ≤ (bestMatch a b alo ahi blo bhi).1 ∧
    blo ≤ (bestMatch a b alo ahi blo bhi).2.1 ∧
    (bestMatch a b alo ahi blo bhi).2.2 ≤ ahi - (bestMatch a b alo ahi blo bhi).1 ∧
    (bestMatch a b alo ahi blo bhi).2.2 ≤ bhi - (bestMatch a b alo ahi blo bhi).2.1 := by
  unfold bestMatch
  refine bestMatch_fold_inv a b alo ahi blo bhi
    (fun t => alo ≤ t.1 ∧ blo ≤ t.2.1 ∧ t.2.2 ≤ ahi - t.1 ∧ t.2.2 ≤ bhi - t.2.1) _ _
    ⟨le_refl _, le_refl _, Nat.zero_le _, Nat.zero_le _⟩ ?_
  intro p hp
  obtain ⟨h1, h2⟩ := windowPairs_mem alo ahi blo bhi p hp
  exact ⟨h1, h2, matchK_le_a a b ahi bhi p.1 p.2, matchK_le_b a b ahi bhi p.1 p.2⟩

theorem totalMatchSize_le_a (a b : List Char) :
    ∀ fuel alo ahi blo bhi, totalMatchSize a b fuel alo ahi blo bhi ≤ ahi - alo := by
  intro fuel
  induction fuel with
  | zero => intro alo ahi blo bhi; simp [totalMatchSize]
  | succ n ih =>
    intro alo ahi blo bhi
    unfold totalMatchSize
    obtain ⟨hbi, hbj, hbka, hbkb⟩ := bestMatch_bounds a b alo ahi blo bhi
    set m := bestMatch a b alo ahi blo bhi with hm
    by_cases hk : m.2.2 = 0
    · simp [hk]
    · simp only [hk, if_false]
      have h1 := ih alo m.1 blo m.2.1
      have h2 := ih (m.1 + m.2.2) ahi (m.2.1 + m.2.2) bhi
      omega

theorem totalMatchSize_le_b (a b : List Char) :
    ∀ fuel alo ahi blo bhi, totalMatchSize a b fuel alo ahi blo bhi ≤ bhi - blo := by
  intro fuel
  induction fuel with
  | zero => intro alo ahi blo bhi; simp [totalMatchSize]
  | succ n ih =>
    intro alo ahi blo bhi
    unfold totalMatchSize
    obtain ⟨hbi, hbj, hbka, hbkb⟩ := bestMatch_bounds a b alo ahi blo bhi
    set m := bestMatch a b alo ahi blo bhi with hm
    by_cases hk : m.2.2 = 0
    · simp [hk]
    · simp only [hk, if_false]
      have h1 := ih alo m.1 blo m.2.1
      have h2 := ih (m.1 + m.2.2) ahi (m.2.1 + m.2.2) bhi
      omega

theorem sequenceRatioL_nonneg (a b : List Char) : 0 ≤ sequenceRatioL a b := by
  unfold sequenceRatioL
  by_cases h : a.length + b.length = 0
  · simp [h]
  · simp only [h, if_false]
    apply div_nonneg <;> positivity

theorem sequenceRatioL_le_one (a b : List Char) : sequenceRatioL a b ≤ 1 := by
  unfold sequenceRatioL
  by_cases h : a.length + b.length = 0
  · simp [h]
  · simp only [h, if_false]
    have hpos : (0 : ℚ) < (a.length : ℚ) + (b.length : ℚ) := by
      have : 0 < a.length + b.length := Nat.pos_of_ne_zero h
      exact_mod_cast this
    rw [div_le_one hpos]
    have ha := totalMatchSize_le_a a b (a.length + b.length + 1) 0 a.length 0 b.length
    have hb := totalMatchSize_le_b a b (a.length + b.length + 1) 0 a.length 0 b.length
    have : 2 * totalMatchSize a b (a.length + b.length + 1) 0 a.length 0 b.length ≤
        a.length + b.length := by omega
    exact_mod_cast this

theorem matchK_le_window (a b : List Char) (ahi bhi i j : Nat) (n : Nat)
    (h : ahi ≤ n) : matchK a b ahi bhi i j ≤ n := by
  unfold matchK; omega

/-- The fold never moves off a maximal accumulator. -/
theorem bestMatch_fold_const (a b : List Char) (ahi bhi : Nat)
    (l : List (Nat × Nat)) (acc : Nat × Nat × Nat)
    (hmax : ∀ p : Nat × Nat, matchK a b ahi bhi p.1 p.2 ≤ acc.2.2) :
    l.foldl
      (fun best p =>
        let k := matchK a b ahi bhi p.1 p.2
        if best.2.2 < k then (p.1, p.2, k) else best) acc = acc := by
  induction l with
  | nil => rfl
  | cons hd tl ih =>
    simp only [List.foldl_cons]
    have : ¬ acc.2.2 < matchK a b ahi bhi hd.1 hd.2 := by
      exact Nat.not_lt.mpr (hmax hd)
    simp only [this, if_false]
    exact ih

theorem bestMatch_self (a : List Char) (h : 0 < a.length) :
    bestMatch a a 0 a.length 0 a.length = (0, 0, a.length) := by
  obtain ⟨m, hm⟩ : ∃ m, a.length = m + 1 := ⟨a.length - 1, by omega⟩
  have hmk : matchK a a a.length a.length 0 0 = a.length := by
    unfold matchK
    simp [lce_self]
  have hw : windowPairs 0 a.length 0 a.length =
      (0, 0) :: ((List.range' 1 m).map (fun j => (0, j)) ++
        (List.range' 1 m).flatMap
          (fun i => (List.range' 0 (m + 1)).map (fun j => (i, j)))) := by
    rw [hm]
    simp only [windowPairs, Nat.sub_zero]
    rw [show List.range' 0 (m + 1) = 0 :: List.range' 1 m from rfl]
    simp [List.flatMap_cons]
  unfold bestMatch
  rw [hw]
  simp only [List.foldl_cons, hmk]
  have hpos : (0 : Nat) < a.length := h
  simp only [show ((0, 0, 0) : Nat × Nat × Nat).2.2 < a.length from hpos, if_true]
  exact bestMatch_fold_const a a a.length a.length _ (0, 0, a.length)
    (fun p => matchK_le_window a a a.length a.length p.1 p.2 a.length (le_refl _))

/-- An empty window contributes no matches. -/
theorem totalMatchSize_empty (a b : List Char) (fuel alo blo bhi : Nat) :
    totalMatchSize a b fuel alo alo blo bhi = 0 := by
  have h := totalMatchSize_le_a a b fuel alo alo blo bhi
  omega

theorem totalMatchSize_self (a : List Char) (fuel : Nat) :
    totalMatchSize a a (fuel + 2) 0 a.length 0 a.length = a.length := by
  by_cases h : a.length = 0
  · have := totalMatchSize_le_a a a (fuel + 2) 0 a.length 0 a.length
    omega
  · have hpos : 0 < a.length := Nat.pos_of_ne_zero h
    unfold totalMatchSize
    rw [bestMatch_self a hpos]
    simp only [h, if_false]
    rw [totalMatchSize_empty]
    have h2 := totalMatchSize_le_a a a (fuel + 1) (0 + a.length) a.length
      (0 + a.length) a.length
    omega

/-- Reflexivity of the modelled sequence ratio. -/
theorem sequenceRatioL_self (a : List Char) : sequenceRatioL a a = 1 := by
  unfold sequenceRatioL
  by_cases h : a.length + a.length = 0
  · simp [h]
  · simp only [h, if_false]
    have hfuel : a.length + a.length + 1 = (a.length + a.length - 1) + 2 := by omega
    rw [hfuel, totalMatchSize_self]
    have hne : (a.length : ℚ) + a.length ≠ 0 := by
      have : 0 < a.length := by omega
      positivity
    field_simp
    ring

theorem sequenceRatio_self (s : String) : sequenceRatio s s = 1 :=
  sequenceRatioL_self s.data

/-! ### Configuration constants (config.example.py defaults) -/

/-- Configured canonical self name (`config.canonical_name` default). -/
def MY_CANONICAL_NAME : String := "Your Name"

/-- Configured self aliases (`config.aliases` default). -/
def MY_ALIASES : List String := ["me", "your-first-name"]

/-- Configured candidate window parameter in hours (`config.window_hours`). -/
def WINDOW_HOURS : Int := 36

/-! ### Title/participant helpers (quill_server.py) -/

/-- Model of `TITLE_CLEAN_RE.sub(" ", s)` with `TITLE_CLEAN_RE =
[^a-z0-9\s]+`: each maximal run of disallowed characters becomes one
space. -/
def titleCleanAux : List Char → Bool → List Char
  | [], _ => []
  | c :: rest, inRun =>
    if isLowerA c || isDigitA c || isWS c then c :: titleCleanAux rest false
    else if inRun then titleCleanAux rest true
    else (Char.ofNat 32) :: titleCleanAux rest true

def titleCleanL (l : List Char) : List Char := titleCleanAux l false

/-- Model of `normalize_title`. -/
def normalize_title (s : String) : String :=
  ⟨stripL (collapseWSL (titleCleanL (lowerL (stripL s.data))))⟩

/-- Components extracted from a meeting title by
`extract_title_components`. -/
structure TitleComponents where
  meeting_type : Option String
  participants : List String
  topic : Option String
deriving DecidableEq, Repr

/-- Substring containment used by the component extractor (Python `in`). -/
def containsStr (hay needle : String) : Bool := containsSub hay.data needle.data

/-- Fixed first-name list hard-coded in `extract_title_components`. -/
def commonNames : List String :=
  ["alex", "alx", "john", "jane", "mike", "sarah", "emily", "david",
   "james", "mary", "robert", "lisa", "william", "jennifer", "michael"]

/-- Text after the first colon of a title, if any (`title.split(":", 1)[1]`). -/
def afterFirstColon (l : List Char) : Option (List Char) :=
  match l.dropWhile (fun c => c ≠ ':') with
  | [] => none
  | _ :: t => some t

/-- Model of `extract_title_components`. -/
def extract_title_components (title : String) : TitleComponents :=
  let tl : String := ⟨lowerL title.data⟩
  let mt : Option String :=
    if containsStr tl "1:1" || containsStr tl "1 on 1" || containsStr tl "1 1" ||
        tl.startsWith "1 1" then some "1:1"
    else if containsStr tl "sync" then some "sync"
    else if containsStr tl "standup" then some "standup"
    else if containsStr tl "retro" then some "retro"
    else none
  let parts : List String := commonNames.filter (fun n => containsStr tl n)
  let topic : Option String :=
    match afterFirstColon title.data with
    | none => none
    | some rest =>
      let tp := stripL rest
      if tp.isEmpty then none else some ⟨lowerL tp⟩
  { meeting_type := mt, participants := parts, topic := topic }

/-- Meeting-type contribution of `calculate_component_similarity` as a
`(score, weight)` pair (weight 0.4 when both titles carry a type). -/
def ccsMeetingPair (ca cb : TitleComponents) : ℚ × ℚ :=
  if truthyS ca.meeting_type && truthyS cb.meeting_type then
    (if ca.meeting_type = cb.meeting_type then ((0.4 : ℚ), (0.4 : ℚ))
     else (0, (0.4 : ℚ)))
  else (0, 0)

/-- Participant contribution: weight 0.4, Jaccard overlap of the name
sets. -/
def ccsParticipantsPair (ca cb : TitleComponents) : ℚ × ℚ :=
  if !ca.participants.isEmpty && !cb.participants.isEmpty then
    let pa := ca.participants.toFinset
    let pb := cb.participants.toFinset
    if pa.Nonempty ∧ pb.Nonempty then
      let ov := (pa ∩ pb).card
      let un := (pa ∪ pb).card
      let psim : ℚ := if 0 < un then (ov : ℚ) / (un : ℚ) else 0
      ((0.4 : ℚ) * psim, (0.4 : ℚ))
    else (0, (0.4 : ℚ))
  else (0, 0)

/-- Topic contribution: weight 0.2, sequence similarity of the topics. -/
def ccsTopicPair (ca cb : TitleComponents) : ℚ × ℚ :=
  if truthyS ca.topic && truthyS cb.topic then
    ((0.2 : ℚ) * sequenceRatio (ca.topic.getD "") (cb.topic.getD ""), (0.2 : ℚ))
  else (0, 0)

/-- Model of `calculate_component_similarity`: weighted blend normalised by
the total applicable weight. -/
def calculate_component_similarity (ca cb : TitleComponents) : ℚ :=
  let st1 := ccsMeetingPair ca cb
  let st2 := ccsParticipantsPair ca cb
  let st3 := ccsTopicPair ca cb
  let score := st1.1 + st2.1 + st3.1
  let total := st1.2 + st2.2 + st3.2
  if 0 < total then score / total else 0

/-- Model of `enhanced_title_matching`.  The Python guard
`if not components_a or not components_b: return 0.0` tests dict truthiness
and is constant-false (the component dict always carries three keys), so it
is not represented. -/
def enhanced_title_matching (a b : String) : ℚ :=
  let ca := extract_title_components a
  let cb := extract_title_components b
  let score := calculate_component_similarity ca cb
  if ca.meeting_type = some "1:1" ∧ cb.meeting_type = some "1:1" ∧
      ¬ ca.participants.isEmpty ∧ ¬ cb.participants.isEmpty ∧
      0 < (ca.participants.toFinset ∩ cb.participants.toFinset).card then
    min 1 (score + (0.3 : ℚ))
  else score

/-- Model of `title_similarity`. -/
def title_similarity (a b : String) : ℚ :=
  let na := normalize_title a
  let nb := normalize_title b
  if na = "" ∨ nb = "" then 0
  else max (sequenceRatio na nb) (enhanced_title_matching na nb)

/-- Model of the parenthetical removal `re.sub(r"\([^)]*\)", "", s)`.  At an
opening parenthesis the match extends to the first closing parenthesis;
without one the character is kept.  Fuel is the input length, always
sufficient. -/
def parenRemoveAux : Nat → List Char → List Char
  | 0, l => l
  | _ + 1, [] => []
  | fuel + 1, c :: rest =>
    if c = '(' then
      match rest.dropWhile (fun d => d ≠ ')') with
      | [] => c :: parenRemoveAux fuel rest
      | _ :: after => parenRemoveAux fuel after
    else c :: parenRemoveAux fuel rest

def parenRemoveL (l : List Char) : List Char := parenRemoveAux l.length l

/-- Model of `normalize_person_token`. -/
def normalize_person_token (s : String) : String :=
  let t := lowerL (stripL s.data)
  let t := parenRemoveL t
  let t := t.map (fun c =>
    if isLowerA c || c = apoChar || isWS c then c else Char.ofNat 32)
  ⟨stripL (collapseWSL t)⟩

/-- Maximal runs of characters satisfying `p` (model of `re.findall` for a
single positive character class). -/
def runsAux (p : Char → Bool) : List Char → List Char → List (List Char)
  | [], cur => if cur.isEmpty then [] else [cur.reverse]
  | c :: rest, cur =>
    if p c then runsAux p rest (c :: cur)
    else if cur.isEmpty then runsAux p rest []
    else cur.reverse :: runsAux p rest []

/-- Model of `tokenize_name` (`NAME_TOKEN_RE = [A-Za-z']+` on `s.lower()`). -/
def tokenize_name (s : String) : List String :=
  (runsAux (fun c => isAlphaA c || c = apoChar) (lowerL s.data) []).map
    (fun l => (⟨l⟩ : String))

/-- Model of `expand_aliases`. -/
def expand_aliases (names : List String) : List String :=
  let aliasSet := MY_ALIASES.map (fun a => (⟨lowerL a.data⟩ : String))
  names.foldr
    (fun n acc =>
      let nl : String := ⟨lowerL (stripL n.data)⟩
      if nl = "" then acc
      else if nl ∈ aliasSet then MY_CANONICAL_NAME :: acc
      else n :: acc) []

/-- Model of Python `str.title()` over the ASCII domain produced by
`normalize_person_token` (letters, apostrophes, spaces). -/
def pyTitleAux : List Char → Bool → List Char
  | [], _ => []
  | c :: rest, prevCased =>
    if isAlphaA c then
      (if prevCased then lowerChar c else upperChar c) :: pyTitleAux rest true
    else c :: pyTitleAux rest false

def pyTitle (s : String) : String := ⟨pyTitleAux s.data false⟩

/-- Splitter for `re.split(r"[,&]| and ", raw, flags=IGNORECASE)`. -/
def splitPartsAux : Nat → List Char → List Char → List String → List String
  | 0, cur, rest, acc => (acc.reverse ++ [(⟨cur.reverse ++ rest⟩ : String)])
  | _ + 1, cur, [], acc => (((⟨cur.reverse⟩ : String)) :: acc).reverse
  | fuel + 1, cur, c :: rest, acc =>
    if c = ',' || c = '&' then
      splitPartsAux fuel [] rest (((⟨cur.reverse⟩ : String)) :: acc)
    else if lowerL (List.take 5 (c :: rest)) = [' ', 'a', 'n', 'd', ' '] then
      splitPartsAux fuel [] (List.drop 5 (c :: rest)) (((⟨cur.reverse⟩ : String)) :: acc)
    else
      splitPartsAux fuel (c :: cur) rest acc

def splitParts (s : String) : List String := splitPartsAux s.data.length [] s.data []

/-- Model of `split_participants_string`. -/
def split_participants_string (db_value : Option String) : List String :=
  if ¬ truthyS db_value then []
  else
    let raw := db_value.getD ""
    let parts := splitParts raw
    let parts := (parts.filter
      (fun p => p ≠ "" && (⟨stripL p.data⟩ : String) ≠ "")).map normalize_person_token
    let parts := expand_aliases parts
    let parts := (parts.filter (fun p => p ≠ "")).map pyTitle
    parts.filter (fun p => p ≠ "")

/-- Model of `fuzzy_name_match`. -/
def fuzzy_name_match (want have' : String) : Bool :=
  let wtoks := tokenize_name (normalize_person_token want)
  let wt := wtoks.toFinset
  let ht := (tokenize_name (normalize_person_token have')).toFinset
  if wt = ∅ ∨ ht = ∅ then false
  else
    let aliasSet := MY_ALIASES.map (fun a => (⟨lowerL a.data⟩ : String))
    let wt :=
      if wtoks.any (fun t => t ∈ aliasSet) then
        wt ∪ (tokenize_name MY_CANONICAL_NAME).toFinset
      else wt
    1 ≤ (wt ∩ ht).card

/-- Model of `participant_overlap_fuzzy`. -/
def participant_overlap_fuzzy (desired db_parts : List String) : ℚ :=
  if desired.isEmpty then 0
  else
    let dn := expand_aliases desired
    let hits := (dn.filter (fun w => db_parts.any (fun h => fuzzy_name_match w h))).length
    (hits : ℚ) / (max dn.length 1 : ℚ)

/-- Lowercased copy of a string (Python `str.lower()`). -/
def lowerStr (s : String) : String := ⟨lowerL s.data⟩

/-! ### Calendar model

Proleptic-Gregorian day arithmetic for `datetime.strptime`,
`datetime.fromtimestamp(·, tz=utc)` and `strftime("%Y-%m-%d")`. -/

/-- Days since the Unix epoch of a civil date (standard civil-calendar
conversion; all intermediate quotients are of non-negative values). -/
def daysFromCivil (y m d : Int) : Int :=
  let y' := if m ≤ 2 then y - 1 else y
  let era := Int.fdiv y' 400
  let yoe := y' - era * 400
  let mp := if 2 < m then m - 3 else m + 9
  let doy := Int.fdiv (153 * mp + 2) 5 + d - 1
  let doe := yoe * 365 + Int.fdiv yoe 4 - Int.fdiv yoe 100 + doy
  era * 146097 + doe - 719468

/-- Civil date `(y, m, d)` of a day count since the Unix epoch. -/
def civilFromDays (z : Int) : Int × Int × Int :=
  let z' := z + 719468
  let era := Int.fdiv z' 146097
  let doe := z' - era * 146097
  let yoe := Int.fdiv (doe - Int.fdiv doe 1460 + Int.fdiv doe 36524 - Int.fdiv doe 146096) 365
  let y := yoe + era * 400
  let doy := doe - (365 * yoe + Int.fdiv yoe 4 - Int.fdiv yoe 100)
  let mp := Int.fdiv (5 * doy + 2) 153
  let d := doy - Int.fdiv (153 * mp + 2) 5 + 1
  let m := if mp < 10 then mp + 3 else mp - 9
  (if m ≤ 2 then y + 1 else y, m, d)

/-- Zero-padded decimal rendering used by `strftime`. -/
def padNum (width : Nat) (n : Int) : String :=
  let s := n.toNat.repr
  ⟨List.replicate (width - s.length) '0' ++ s.data⟩

/-- Model of `strftime("%Y-%m-%d")` on a civil date. -/
def formatYMD : Int × Int × Int → String
  | (y, m, d) => padNum 4 y ++ "-" ++ padNum 2 m ++ "-" ++ padNum 2 d

/-- Days in a month of the proleptic Gregorian calendar. -/
def daysInMonth (y m : Int) : Int :=
  if m = 2 then
    (if y % 4 = 0 ∧ (y % 100 ≠ 0 ∨ y % 400 = 0) then 29 else 28)
  else if m = 4 ∨ m = 6 ∨ m = 9 ∨ m = 11 then 30
  else 31

/-- All-digit test for a character list. -/
def allDigits (l : List Char) : Bool := !l.isEmpty && l.all isDigitA

/-- Numeric value of a digit list. -/
def digitsVal (l : List Char) : Int :=
  l.foldl (fun acc c => acc * 10 + ((c.toNat : Int) - 48)) 0

/-- Model of `datetime.strptime(s, "%Y-%m-%d")`: four-digit year, one- or
two-digit month and day, range-checked; `none` models the `ValueError`
raised on any other input. -/
def parseDateYMD (s : String) : Option (Int × Int × Int) :=
  match s.data.splitOn '-' with
  | [ys, ms, ds] =>
    if allDigits ys ∧ ys.length = 4 ∧ allDigits ms ∧ ms.length ≤ 2 ∧
        allDigits ds ∧ ds.length ≤ 2 then
      let y := digitsVal ys
      let m := digitsVal ms
      let d := digitsVal ds
      if 1 ≤ y ∧ 1 ≤ m ∧ m ≤ 12 ∧ 1 ≤ d ∧ d ≤ daysInMonth y m then
        some (y, m, d)
      else none
    else none
  | _ => none

/-- Epoch milliseconds of noon UTC on a civil date (the day-window centre
computed by `local_day_bounds_ms`). -/
def dayNoonMs (ymd : Int × Int × Int) : Int :=
  (daysFromCivil ymd.1 ymd.2.1 ymd.2.2 * 86400 + 43200) * 1000

/-- Model of `local_day_bounds_ms` on an already-parsed date: the window is
`centre ± WINDOW_HOURS` hours around noon UTC of the date. -/
def local_day_bounds_ms (ymd : Int × Int × Int) : Int × Int :=
  let half := WINDOW_HOURS * 60 * 60 * 1000
  let center := dayNoonMs ymd
  (center - half, center + half)

/-- Model of `same_local_calendar_day`: the fixed UTC−5/−6 offset is chosen
by the UTC month of the timestamp, then the shifted day is formatted and
compared with the stored date string. -/
def same_local_calendar_day (meeting_date : String) (start_ms : Option Int) : Bool :=
  match start_ms with
  | none => false
  | some ms =>
    let daysUtc := Int.fdiv ms 86400000
    let month := (civilFromDays daysUtc).2.1
    let offset : Int := if 3 ≤ month ∧ month ≤ 11 then -5 else -6
    let daysLocal := Int.fdiv (ms + offset * 3600000) 86400000
    formatYMD (civilFromDays daysLocal) = meeting_date

/-! ### Transcript blocks and meeting rows -/

/-- Model of a raw transcript block dict.  Only the keys read by the scorer
and the attribution engine are represented; a `none` field models an absent
key. -/
structure TranscriptBlock where
  speaker_id : Option String := none
  speakerId : Option String := none
  participant_id : Option String := none
  participantId : Option String := none
  source : Option String := none
  cluster : Option String := none
  text : Option String := none
  speaker_name : Option String := none
  display_name : Option String := none
  name : Option String := none
  label : Option String := none
  speaker : Option String := none
deriving DecidableEq, Repr

/-- Model of `MeetingRow`.  `speakersNames` abstracts the JSON decoding of
`speakers_json` as the list of `name`/`display_name` strings the Python code
extracts from it (`none` when the column is absent or unparseable, as it is
for every row produced by `get_meeting_by_id`/`get_meetings_in_window`, which
do not select the column).  `audioBlocks` likewise abstracts
`_parse_audio_blocks(audio_transcript)` as its returned block list (`none`
models a failed parse). -/
structure MeetingRow where
  id : String
  title : Option String
  participants : Option String
  speakersNames : Option (List String)
  start : Option Int
  end_ : Option Int
  audio_transcript : Option String
  audioBlocks : Option (List TranscriptBlock)
deriving DecidableEq, Repr

/-- Name-normalisation chain shared by the branches of
`derive_db_participants`. -/
def participantChain (names : List String) : List String :=
  let parts := (names.filter (fun n => n ≠ "")).map normalize_person_token
  let parts := expand_aliases parts
  let parts := (parts.filter (fun p => p ≠ "")).map pyTitle
  parts.filter (fun p => p ≠ "")

/-- Model of `derive_db_participants`: ContactMeeting names first, then the
names extracted from `speakers_json`, then the participants string. -/
def derive_db_participants (contact : Option (String → List String))
    (m : MeetingRow) : List String :=
  let fromContact : List String :=
    match contact with
    | some f => if (f m.id).isEmpty then [] else participantChain (f m.id)
    | none => []
  if ¬ fromContact.isEmpty then fromContact
  else
    let fromJson : List String :=
      match m.speakersNames with
      | some names => if names.isEmpty then [] else participantChain names
      | none => []
    if ¬ fromJson.isEmpty then fromJson
    else split_participants_string m.participants

/-! ### Transcript-snippet cleanup and matching (compute_score lines
1404-1460) -/

/-- Matcher for `Speaker \d+:\s*` anchored at the head of the list; returns
the remainder after the match. -/
def matchSpeakerTag (l : List Char) : Option (List Char) :=
  if ("Speaker ".data).isPrefixOf l then
    let rest := l.drop 8
    let ds := rest.takeWhile isDigitA
    if ds.isEmpty then none
    else
      match rest.drop ds.length with
      | c :: r2 => if c = ':' then some (r2.dropWhile (fun d => isWS d)) else none
      | [] => none
  else none

/-- Leftmost non-overlapping deletion of every match of `try'` (model of
`re.sub(pat, "", s)` for patterns without `\b`).  Every successful match
consumes at least one character, so the length fuel always suffices. -/
def subDelAux (try' : List Char → Option (List Char)) : Nat → List Char → List Char
  | 0, l => l
  | _ + 1, [] => []
  | fuel + 1, c :: cs =>
    match try' (c :: cs) with
    | some rest => subDelAux try' fuel rest
    | none => c :: subDelAux try' fuel cs

/-- Model of `re.sub(r"Speaker \d+:\s*", "", s)`. -/
def stripSpeakerLabelsL (l : List Char) : List Char :=
  subDelAux matchSpeakerTag l.length l

/-- Matcher for `[A-Z][a-z]+` (one uppercase letter, then at least one
lowercase letter, greedy); returns the remainder. -/
def matchCapWord : List Char → Option (List Char)
  | c :: rest =>
    if isUpperA c then
      let lows := rest.takeWhile isLowerA
      if lows.isEmpty then none else some (rest.drop lows.length)
    else none
  | [] => none

/-- Backtracking tail of `(?:\s+[A-Z][a-z]+)*:\s*`: prefer extending with one
more capitalised word, fall back to the terminating colon. -/
def nameLabelTail : Nat → List Char → Option (List Char)
  | 0, _ => none
  | fuel + 1, l =>
    let ws := l.takeWhile (fun c => isWS c)
    let ext : Option (List Char) :=
      if ws.isEmpty then none
      else
        match matchCapWord (l.drop ws.length) with
        | some r => nameLabelTail fuel r
        | none => none
    match ext with
    | some r => some r
    | none =>
      match l with
      | c :: r => if c = ':' then some (r.dropWhile (fun d => isWS d)) else none
      | [] => none

/-- Matcher for `[A-Z][a-z]+(?:\s+[A-Z][a-z]+)*:\s*` anchored at the head
(the `\b` test is performed by the scanner). -/
def matchNameLabel (l : List Char) : Option (List Char) :=
  match matchCapWord l with
  | some r => nameLabelTail (r.length + 1) r
  | none => none

/-- Scanner for `re.sub` of a pattern guarded by a leading `\b`: the flag
tracks whether the previous original character was a word character.  The
last character of any match is `:` or whitespace, so after a deletion the
boundary flag is reset. -/
def subDelBAux (try' : List Char → Option (List Char)) :
    Nat → Bool → List Char → List Char
  | 0, _, l => l
  | _ + 1, _, [] => []
  | fuel + 1, prevWord, c :: cs =>
    if prevWord then c :: subDelBAux try' fuel (isWordChar c) cs
    else
      match try' (c :: cs) with
      | some rest => subDelBAux try' fuel false rest
      | none => c :: subDelBAux try' fuel (isWordChar c) cs

/-- Model of `re.sub(r"\b[A-Z][a-z]+(?:\s+[A-Z][a-z]+)*:\s*", "", s)`. -/
def stripNameLabelsL (l : List Char) : List Char :=
  subDelBAux matchNameLabel l.length false l

/-- Block text with Python's `b.get("text", "")` default. -/
def getText (b : TranscriptBlock) : String := b.text.getD ""

/-- Model of `" ".join(xs)`. -/
def joinSpace (xs : List String) : String := String.intercalate " " xs

/-- Snippet-side cleanup pipeline of `compute_score` (lines 1417-1430):
collapse whitespace on the stripped snippet, normalise the double-prime
quote variant (the four remaining `replace` calls of the source substitute a
character for itself), then strip `Speaker N:` and capitalised-name
labels. -/
def snippetCleanL (l : List Char) : List Char :=
  let t := collapseWSL (stripL l)
  let t := charReplace dblPrimeChar quoteChar t
  let t := charReplace quoteChar quoteChar t
  let t := charReplace quoteChar quoteChar t
  let t := charReplace apoChar apoChar t
  let t := charReplace apoChar apoChar t
  stripNameLabelsL (stripSpeakerLabelsL t)

/-- Label-stripping cleanup applied to candidate-side text (whitespace
collapse, speaker labels, name labels — no quote normalisation; lines
1418, 1427, 1430 and, for the extended window, 1449-1451). -/
def extendedCleanL (l : List Char) : List Char :=
  stripNameLabelsL (stripSpeakerLabelsL (collapseWSL l))

/-- Candidate-side cleanup pipeline of `compute_score`: the leading text is
truncated to twice the snippet length, then cleaned without quote
normalisation. -/
def candidateCleanL (snippetLen : Nat) (l : List Char) : List Char :=
  extendedCleanL (l.take (snippetLen * 2))

/-- Model of the transcript-snippet score computed inside `compute_score`
(zero when the snippet or the candidate transcript is falsy, when the blob
fails to parse, or when the leading text is empty). -/
def transcriptScoreOf (transcript_snippet : Option String) (m : MeetingRow) : ℚ :=
  if truthyS transcript_snippet && truthyS m.audio_transcript then
    match m.audioBlocks with
    | none => 0
    | some blocks =>
      if blocks.isEmpty then 0
      else
        let sn := transcript_snippet.getD ""
        let beginning_text := stripL (joinSpace ((blocks.take 10).map getText)).data
        if beginning_text.isEmpty then 0
        else
          let snippet_clean := snippetCleanL sn.data
          let beginning_clean :=
            candidateCleanL (collapseWSL (stripL sn.data)).length beginning_text
          let similarity := sequenceRatioL (lowerL snippet_clean) (lowerL beginning_clean)
          let ts := similarity
          let ts := if (0.8 : ℚ) < similarity then min 1 (similarity + (0.2 : ℚ)) else ts
          let ts :=
            if containsSub (lowerL beginning_clean) (lowerL snippet_clean) then
              min 1 (ts + (0.1 : ℚ))
            else ts
          if ts < (0.3 : ℚ) ∧ 10 < blocks.length then
            let extended_text := joinSpace ((blocks.take 50).map getText)
            let extended_clean := extendedCleanL extended_text.data
            let ts :=
              if containsSub (lowerL extended_clean) (lowerL snippet_clean) then
                max ts (0.4 : ℚ)
              else ts
            let ext_sim := sequenceRatioL (lowerL snippet_clean)
              (extended_clean.take (snippet_clean.length * 5))
            max ts (ext_sim * (0.8 : ℚ))
          else ts
  else 0

/-! ### Scoring (compute_score, WEIGHT_TABLE, CONFIDENCE_THRESHOLDS) -/

/-- Per-session-type scoring weights. -/
structure Weights where
  overlap : ℚ
  title : ℚ
  time : ℚ
deriving DecidableEq, Repr

/-- Literal weight table (quill_server.py lines 1365-1374; identical in
config.example.py).  Unknown session types fall back to `"default"` via
`WEIGHT_TABLE.get`. -/
def weightTable (session_type : String) : Weights :=
  if session_type = "1-on-1" then ⟨0.70, 0.15, 0.15⟩
  else if session_type = "internal-sync" then ⟨0.65, 0.20, 0.15⟩
  else if session_type = "external-sync" then ⟨0.75, 0.10, 0.15⟩
  else if session_type = "note-to-self" then ⟨0.60, 0.10, 0.30⟩
  else ⟨0.60, 0.25, 0.15⟩

/-- Literal confidence thresholds (config.example.py lines 103-109), with the
`"default"` fallback of `CONF_THRESHOLDS.get`. -/
def confThreshold (session_type : String) : ℚ :=
  if session_type = "1-on-1" then 0.45
  else if session_type = "internal-sync" then 0.42
  else if session_type = "external-sync" then 0.35
  else if session_type = "note-to-self" then 0.35
  else 0.40

/-- Model of Python `round(x, 3)` (round half to even) over `ℚ`. -/
def round3 (q : ℚ) : ℚ :=
  let n := q * 1000
  let f : Int := ⌊n⌋
  let r := n - f
  let k : Int :=
    if r < 1/2 then f
    else if 1/2 < r then f + 1
    else if f % 2 = 0 then f else f + 1
  (k : ℚ) / 1000

/-- Model of the desired-participant cleanup
`[p.strip() for p in (desired_participants or []) if p and p.strip()]`. -/
def stripFilterDesired (l : List String) : List String :=
  (l.filter (fun p => p ≠ "" && (⟨stripL p.data⟩ : String) ≠ "")).map
    (fun p => (⟨stripL p.data⟩ : String))

/-- Candidate time midpoint as the source computes it (lines 1396-1398).
Python's conditional expression associates to the right, so a candidate with
only an end bound yields `center_ms + m.end`, not `m.end`; when both bounds
are present a second statement overwrites the value with the floor-average. -/
def timeMidOf (center : Int) (m : MeetingRow) : Int :=
  let t0 : Int :=
    match m.start with
    | some s => s
    | none =>
      match m.end_ with
      | some e => center + e
      | none => center
  match m.start, m.end_ with
  | some s, some e => Int.fdiv (s + e) 2
  | _, _ => t0

/-- Time-proximity score (lines 1399-1400), including the `t_mid or
center_ms` truthiness fallback. -/
def timeScoreOf (center lo hi : Int) (m : MeetingRow) : ℚ :=
  let span : ℚ := ((max 1 (hi - lo) : Int) : ℚ)
  max 0 (1 - ((|pyOrIntV (timeMidOf center m) center - center| : Int) : ℚ) / span)

/-- Same-local-day bonus (line 1402). -/
def sameDayBonusOf (meeting_date : String) (start : Option Int) : ℚ :=
  if same_local_calendar_day meeting_date start then 0.10 else 0

/-- Set-logic adjustments of `compute_score` (lines 1465-1493): returns
`(set_bonus, set_penalty)`. -/
def setAdjust (session_type : String) (desired db_parts : List String) : ℚ × ℚ :=
  let dset := (desired.map lowerStr).toFinset
  let bset := (db_parts.map lowerStr).toFinset
  if desired.isEmpty then (0, 0)
  else
    let base : ℚ × ℚ :=
      if dset = bset then (0.25, 0)
      else
        let p1 : ℚ :=
          if dset ⊆ bset then
            min 0.12 ((0.04 : ℚ) * ((max 0 ((bset.card : Int) - (dset.card : Int))) : ℚ))
          else 0
        let missing := (dset \ bset).card
        let p2 : ℚ :=
          if 0 < missing then min 0.35 ((0.18 : ℚ) + (0.10 : ℚ) * ((missing : ℚ) - 1))
          else 0
        (0, p1 + p2)
    if session_type = "1-on-1" then
      if bset.card = 2 ∧ dset.card = 2 ∧ dset = bset then (base.1 + 0.12, base.2)
      else if 2 < bset.card then (base.1, base.2 + 0.10)
      else base
    else base

/-- Group-size sanity penalty (lines 1496-1498). -/
def groupSizePenaltyOf (session_type : String) (db_parts : List String) : ℚ :=
  if session_type = "note-to-self" ∧ 1 < db_parts.length then 0.15 else 0

/-- Score breakdown dict built by `compute_score` (the `parts` mapping). -/
structure Breakdown where
  overlap : ℚ
  title_score : ℚ
  time_score : ℚ
  transcript_score : ℚ
  same_day_bonus : ℚ
  set_bonus : ℚ
  set_penalty : ℚ
  group_size_penalty : ℚ
  composite : ℚ
  db_parts : List String
  desired_parts : List String
deriving DecidableEq, Repr

/-- Model of `compute_score`.  The cursor argument of the source becomes the
optional ContactMeeting lookup `contact`. -/
def computeScore (session_type meeting_date : String) (needle_title : Option String)
    (desired_participants : List String) (center lo hi : Int) (m : MeetingRow)
    (contact : Option (String → List String))
    (transcript_snippet : Option String) : ℚ × Breakdown :=
  let db_parts := derive_db_participants contact m
  let desired := stripFilterDesired desired_participants
  let overlap := participant_overlap_fuzzy desired db_parts
  let title_score := title_similarity (pyOrEmpty needle_title) (pyOrEmpty m.title)
  let time_score := timeScoreOf center lo hi m
  let same_day_bonus := sameDayBonusOf meeting_date m.start
  let transcript_score := transcriptScoreOf transcript_snippet m
  let sp := setAdjust session_type desired db_parts
  let group_size_penalty := groupSizePenaltyOf session_type db_parts
  let w := weightTable session_type
  let composite : ℚ :=
    if truthyS transcript_snippet then
      ((w.overlap * 0.2) * overlap) + ((w.title * 0.2) * title_score) +
        ((w.time * 0.5) * time_score) + ((0.60 : ℚ) * transcript_score) +
        same_day_bonus + sp.1 - sp.2 - group_size_penalty
    else
      (w.overlap * overlap) + (w.title * title_score) + (w.time * time_score) +
        same_day_bonus + sp.1 - sp.2 - group_size_penalty
  (composite,
    { overlap := round3 overlap
      title_score := round3 title_score
      time_score := round3 time_score
      transcript_score := round3 transcript_score
      same_day_bonus := round3 same_day_bonus
      set_bonus := round3 sp.1
      set_penalty := round3 sp.2
      group_size_penalty := round3 group_size_penalty
      composite := round3 composite
      db_parts := db_parts
      desired_parts := desired })

/-! ### Record store (database.py and the Meeting table) -/

/-- One stored `Meeting` row (the persisted table view of a candidate).  The
JSON-backed columns carry their extracted contents as in `MeetingRow`. -/
structure DbMeeting where
  id : String
  title : Option String
  participants : Option String
  speakersNames : Option (List String)
  start : Option Int
  end_ : Option Int
  audio_transcript : Option String
  audioBlocks : Option (List TranscriptBlock)
  deleteDate : Option Int
deriving DecidableEq, Repr

/-- The external record store: the Meeting table plus the ContactMeeting
name lookup.  `dbExists` models the `QUILL_DB_PATH.exists()` guard and
`speakersCol` whether the optional `speakers` column is present (it is only
selected by `fetch_start_in_window`). -/
structure DbStore where
  dbExists : Bool
  meetings : List DbMeeting
  contactSpeakers : String → List String
  speakersCol : Bool

/-- Row produced by a SELECT that omits the `speakers` column
(`row_to_meeting` then stores `None`). -/
def rowNoSpeakers (d : DbMeeting) : MeetingRow :=
  { id := d.id, title := d.title, participants := d.participants,
    speakersNames := none, start := d.start, end_ := d.end_,
    audio_transcript := d.audio_transcript, audioBlocks := d.audioBlocks }

/-- Row produced by `select_clause_for_meeting`, which includes `speakers`
exactly when the column exists. -/
def rowSelectFull (store : DbStore) (d : DbMeeting) : MeetingRow :=
  { rowNoSpeakers d with
    speakersNames := if store.speakersCol then d.speakersNames else none }

/-- Model of `get_meeting_by_id` (database.py lines 133-144). -/
def getMeetingById (store : DbStore) (meeting_id : String) : Option MeetingRow :=
  ((store.meetings.filter
    (fun d => d.deleteDate = none && d.id = meeting_id)).head?).map rowNoSpeakers

/-- SQL predicate `deleteDate IS NULL AND NOT (end < lo OR start > hi)`;
under SQL three-valued logic a row with a NULL bound never satisfies it. -/
def sqlOverlapPred (lo hi : Int) (d : DbMeeting) : Bool :=
  d.deleteDate = none &&
    match d.start, d.end_ with
    | some s, some e => decide (lo ≤ e) && decide (s ≤ hi)
    | _, _ => false

/-- SQL predicate `deleteDate IS NULL AND start BETWEEN lo AND hi`. -/
def sqlStartPred (lo hi : Int) (d : DbMeeting) : Bool :=
  d.deleteDate = none &&
    match d.start with
    | some s => decide (lo ≤ s) && decide (s ≤ hi)
    | none => false

/-- Stable insertion by ascending `start` (model of `ORDER BY start ASC`). -/
def insertByStart (d : DbMeeting) : List DbMeeting → List DbMeeting
  | [] => [d]
  | x :: xs =>
    if x.start.getD 0 ≤ d.start.getD 0 then x :: insertByStart d xs
    else d :: x :: xs

def sortByStart (l : List DbMeeting) : List DbMeeting :=
  l.foldl (fun acc d => insertByStart d acc) []

/-- Model of `get_meetings_in_window` (database.py lines 146-158). -/
def getMeetingsInWindow (store : DbStore) (lo hi : Int) (limit : Nat) :
    List MeetingRow :=
  ((sortByStart (store.meetings.filter (sqlOverlapPred lo hi))).take limit).map
    rowNoSpeakers

/-- Model of `fetch_start_in_window` with `like=None` (quill_server.py lines
1300-1313). -/
def fetchStartInWindow (store : DbStore) (lo hi : Int) (limit : Nat) :
    List MeetingRow :=
  ((sortByStart (store.meetings.filter (sqlStartPred lo hi))).take limit).map
    (rowSelectFull store)

/-! ### Pending records and the candidate selector -/

/-- Model of a pending record as written by `save_pending` (every key is
present, possibly null). -/
structure PendingRecord where
  meeting_date : String
  meeting_title : Option String
  session_type : Option String
  participants : Option (List String)
  quill_meeting_id : Option String
  quill_start_ms : Option Int
  quill_end_ms : Option Int
  quill_title : Option String
  transcript_snippet : Option String
deriving DecidableEq, Repr

/-- Diagnostics entry appended to `debug_rows` (`{**m.brief(), **parts,
"session_type": ...}`; the ISO-rendering fields of `brief()` are pure
formatting and not represented). -/
structure ScoreMeta where
  row_id : String
  row_title : Option String
  start : Option Int
  end_ : Option Int
  has_audio : Bool
  parts : Breakdown
  session_type : String
deriving DecidableEq, Repr

def mkMeta (m : MeetingRow) (parts : Breakdown) (session_type : String) : ScoreMeta :=
  { row_id := m.id, row_title := m.title, start := m.start, end_ := m.end_,
    has_audio := truthyS m.audio_transcript, parts := parts,
    session_type := session_type }

/-- Participant pre-filter applied inside the scoring loop of
`find_best_candidate` (lines 1638-1649): with desired participants and no
transcript snippet, a candidate is skipped when the lowercased exact name
sets do not intersect and at least two distinct desired names exist. -/
def prefilterSkips (desired_participants : List String)
    (transcript_snippet : Option String) (cand_parts : List String) : Bool :=
  if ¬ desired_participants.isEmpty ∧ ¬ truthyS transcript_snippet then
    let dset := (desired_participants.map lowerStr).toFinset
    let bset := (cand_parts.map lowerStr).toFinset
    let overlap_count := (dset ∩ bset).card
    overlap_count = 0 && 2 ≤ dset.card
  else false

/-- Window and scoring centre computed by `find_best_candidate` (lines
1609-1613).  The returned triple is `(lo, hi, center)`; errors model the
exceptions of `strptime` and of `int(None)` (the latter is reachable, e.g.
with `quill_start_ms = 0` and no `quill_end_ms`, because the code guards
with `is not None` but then branches on truthiness). -/
def selectorCenterBounds (pd : PendingRecord) : Except PyErr (Int × Int × Int) :=
  match parseDateYMD pd.meeting_date with
  | none => .error .valueError
  | some ymd =>
    let b := local_day_bounds_ms ymd
    let center0 := Int.fdiv (b.1 + b.2) 2
    if pd.quill_start_ms.isSome || pd.quill_end_ms.isSome then
      let qs := pd.quill_start_ms
      let qe := pd.quill_end_ms
      if truthyI (pyAndI qs qe) then
        match pyOrI qs qe, pyOrI qe qs with
        | some a, some b' => .ok (b.1, b.2, Int.fdiv (a + b') 2)
        | _, _ => .error .typeError
      else
        match pyInt (pyOrI qs qe) with
        | .ok v => .ok (b.1, b.2, v)
        | .error e => .error e
    else .ok (b.1, b.2, center0)

/-- Fetch window used by step 2 of the selector: always the day bounds,
independent of the quill start/end fields. -/
def selectorFetchWindow (pd : PendingRecord) : Option (Int × Int) :=
  (parseDateYMD pd.meeting_date).map local_day_bounds_ms

/-- Stable descending insertion by composite score (Python's stable
`sort(key=score, reverse=True)`). -/
def insertScored (x : ℚ × MeetingRow × ScoreMeta) :
    List (ℚ × MeetingRow × ScoreMeta) → List (ℚ × MeetingRow × ScoreMeta)
  | [] => [x]
  | y :: ys => if x.1 ≤ y.1 then y :: insertScored x ys else x :: y :: ys

def sortScoredDesc (l : List (ℚ × MeetingRow × ScoreMeta)) :
    List (ℚ × MeetingRow × ScoreMeta) :=
  l.foldl (fun acc x => insertScored x acc) []

/-- Scored candidate list built by the loop of `find_best_candidate` (lines
1622-1660), before sorting. -/
def selectorScoredRaw (store : DbStore) (pd : PendingRecord)
    (lo hi center : Int) : List (ℚ × MeetingRow × ScoreMeta) :=
  let session_type := (pyOrS pd.session_type (some "default")).getD "default"
  let desired_participants := pd.participants.getD []
  let look_title := pyOrS pd.quill_title pd.meeting_title
  let transcript_snippet := pd.transcript_snippet
  (getMeetingsInWindow store lo hi 800).filterMap (fun m =>
    if ¬ truthyS m.audio_transcript then none
    else
      let cand_parts := derive_db_participants (some store.contactSpeakers) m
      if prefilterSkips desired_participants transcript_snippet cand_parts then none
      else
        let r := computeScore session_type pd.meeting_date look_title
          desired_participants center lo hi m (some store.contactSpeakers)
          transcript_snippet
        some (r.1, m, mkMeta m r.2 session_type))

/-- Title-only fallback scan (lines 1706-1716). -/
def titleFallback (store : DbStore) (lo hi : Int) (look_title : Option String)
    (debug_rows : List ScoreMeta) :
    Except PyErr (Option MeetingRow × Option String × List ScoreMeta) :=
  let best := (fetchStartInWindow store lo hi 500).foldl
    (fun acc m =>
      if ¬ truthyS m.audio_transcript then acc
      else
        let s := title_similarity (pyOrEmpty look_title) (pyOrEmpty m.title)
        if acc.2 < s then (some m, s) else acc)
    ((none : Option MeetingRow), (0 : ℚ))
  match best with
  | (some m, s) =>
    if (0.70 : ℚ) ≤ s then .ok (some m, some "title", debug_rows)
    else .ok (none, none, debug_rows)
  | (none, _) => .ok (none, none, debug_rows)

/-- Model of `find_best_candidate` (lines 1589-1718). -/
def findBestCandidate (store : DbStore) (pd : PendingRecord) :
    Except PyErr (Option MeetingRow × Option String × List ScoreMeta) :=
  if ¬ store.dbExists then .ok (none, none, [])
  else
    let byId : Option MeetingRow :=
      match pd.quill_meeting_id with
      | some qid =>
        if qid ≠ "" then
          match getMeetingById store qid with
          | some row => if truthyS row.audio_transcript then some row else none
          | none => none
        else none
      | none => none
    match byId with
    | some row => .ok (some row, some "id", [])
    | none =>
      match selectorCenterBounds pd with
      | .error e => .error e
      | .ok (lo, hi, center) =>
        let session_type := (pyOrS pd.session_type (some "default")).getD "default"
        let look_title := pyOrS pd.quill_title pd.meeting_title
        let scored := sortScoredDesc (selectorScoredRaw store pd lo hi center)
        let debug_rows := (scored.take 25).map (fun t => t.2.2)
        let thresh := confThreshold session_type
        match scored with
        | [] => titleFallback store lo hi look_title debug_rows
        | top :: _ =>
          let top_score := top.1
          let top_row := top.2.1
          let top_meta := top.2.2
          let desired := top_meta.parts.desired_parts
          let db_parts := top_meta.parts.db_parts
          let min_overlap : ℚ :=
            if session_type = "external-sync" ∨ session_type = "internal-sync" then 0.60
            else 0.50
          let ok_overlap := min_overlap ≤ top_meta.parts.overlap
          let exact_set :=
            if ¬ desired.isEmpty then
              (desired.map lowerStr).toFinset = (db_parts.map lowerStr).toFinset
            else False
          let transcript_s := top_meta.parts.transcript_score
          if (0.15 : ℚ) ≤ transcript_s then
            .ok (some top_row, some "transcript", debug_rows)
          else
            let overlap := top_meta.parts.overlap
            if (thresh ≤ top_score ∧ (ok_overlap ∨ exact_set)) ∨
                ((0.9 : ℚ) ≤ overlap ∧ (0.1 : ℚ) ≤ transcript_s) then
              .ok (some top_row, some "ranked_window", debug_rows)
            else
              let title_s := top_meta.parts.title_score
              let comp := top_meta.parts.composite
              if ((0.50 : ℚ) ≤ overlap ∧ (0.20 : ℚ) ≤ title_s ∧
                    (thresh - 0.05) ≤ comp) ∨
                  (0.3 : ℚ) ≤ transcript_s ∨ (0.25 : ℚ) ≤ title_s then
                .ok (some top_row, some "ranked_overlap", debug_rows)
              else titleFallback store lo hi look_title debug_rows

/-! ### Speaker attribution (quill_server.py lines 300-313, 465-505,
711-735, 760-839) -/

/-- Python `str.split()` with no arguments: maximal non-whitespace runs. -/
def pySplitWS (s : String) : List String :=
  (runsAux (fun c => !isWS c) s.data []).map (fun l => (⟨l⟩ : String))

/-- Model of `_norm_name`. -/
def normName (s : String) : String := ⟨collapseWSL (lowerL (stripL s.data))⟩

/-- Model of `_is_me`. -/
def isMe (name : String) : Bool :=
  let n := normName name
  if n = "" then false
  else if n ∈ MY_ALIASES then true
  else
    let canonicalTokens := (pySplitWS MY_CANONICAL_NAME).map lowerStr
    (pySplitWS n).any (fun t => lowerStr t ∈ canonicalTokens)

/-- Model of `_extract_explicit_label` for string-valued fields (the
dict-valued fallback of the source is not exercised by block payloads with
string labels and is not represented). -/
def extractExplicitLabel (b : TranscriptBlock) : Option String :=
  let pick : Option String → Option String := fun v =>
    match v with
    | some s =>
      if (⟨stripL s.data⟩ : String) ≠ "" then some (⟨stripL s.data⟩ : String) else none
    | none => none
  (pick b.speaker_name).orElse (fun _ =>
    (pick b.display_name).orElse (fun _ =>
      (pick b.name).orElse (fun _ =>
        (pick b.label).orElse (fun _ => pick b.speaker))))

/-- Model of `_speaker_key`: explicit id fields, then source tag, then
cluster tag, then positional index. -/
def speakerKey (b : TranscriptBlock) (idx : Nat) : String :=
  match b.speaker_id with
  | some v => "id:" ++ v
  | none =>
    match b.speakerId with
    | some v => "id:" ++ v
    | none =>
      match b.participant_id with
      | some v => "id:" ++ v
      | none =>
        match b.participantId with
        | some v => "id:" ++ v
        | none =>
          if truthyS b.source then "src:" ++ b.source.getD ""
          else
            match b.cluster with
            | some v => "clu:" ++ v
            | none => "idx:" ++ idx.repr

/-- Occurrence counter preserving first-insertion order (Python dict). -/
def bumpCount (k : String) : List (String × Nat) → List (String × Nat)
  | [] => [(k, 1)]
  | (k', n) :: rest =>
    if k' = k then (k', n + 1) :: rest else (k', n) :: bumpCount k rest

/-- Model of `_pick_me_speaker_id`: the speaker id most frequently tagged
with a local source; a stable descending sort means ties go to the id first
inserted. -/
def pickMeSpeakerId (blocks : List TranscriptBlock) : Option String :=
  let counts := blocks.foldl
    (fun acc b =>
      match b.speaker_id with
      | none => acc
      | some sid =>
        let src := lowerStr (b.source.getD "")
        if src = "" then acc
        else if src = "mic" ∨ src = "local" ∨ src = "local-user" then bumpCount sid acc
        else acc) []
  match counts with
  | [] => none
  | c :: rest => some (rest.foldl (fun best p => if best.2 < p.2 then p else best) c).1

/-- Text before the first colon (`t.split(":", 1)[0]`). -/
def beforeFirstColon (l : List Char) : List Char := l.takeWhile (fun c => c ≠ ':')

/-- Model of `_looks_like_title_fragment`. -/
def looksLikeTitleFragment (label : String)
    (quill_title meeting_title : Option String) : Bool :=
  if label = "" then false
  else
    let nl := normalize_title label
    if containsStr label "<>" then true
    else
      let check : String → Bool := fun t =>
        let nt := normalize_title ⟨beforeFirstColon t.data⟩
        if nt = "" then false
        else
          (nl ≠ "" && (nt.startsWith nl || containsStr nt nl)) ||
            decide ((0.78 : ℚ) ≤ sequenceRatio nl nt)
      check (pyOrEmpty quill_title) || check (pyOrEmpty meeting_title)

/-- Character class `[A-Za-z .'-]` of the inline-name regex. -/
def inlineNameClass (c : Char) : Bool :=
  isAlphaA c || c = Char.ofNat 32 || c = '.' || c = apoChar || c = '-'

/-- Model of `re.match(r"^([A-Za-z][A-Za-z .'-]{0,40}?):\s+", txt)`,
returning the captured group.  The lazy quantifier picks the smallest prefix
length followed by a colon and at least one whitespace character. -/
def inlineNameMatch (l : List Char) : Option String :=
  match l with
  | [] => none
  | c :: rest =>
    if isAlphaA c then
      let ok : Nat → Bool := fun k =>
        let seg := rest.take k
        seg.length = k && seg.all inlineNameClass &&
          (match rest.drop k with
           | d :: e :: _ => d = ':' && isWS e
           | _ => false)
      match (List.range 41).find? ok with
      | some k => some ⟨c :: rest.take k⟩
      | none => none
    else none

/-- Source tags that directly mark a block as the local user (line 809). -/
def selfSourceTags : List String := ["me", "local", "local_user", "self"]

/-- Python dict assignment on an insertion-ordered association list:
existing keys are updated in place, new keys appended. -/
def dictSet (k v : String) : List (String × String) → List (String × String)
  | [] => [(k, v)]
  | (k', v') :: rest =>
    if k' = k then (k', v) :: rest else (k', v') :: dictSet k v rest

/-- Set insertion for the `used_names` set. -/
def setAdd (x : String) (s : List String) : List String :=
  if x ∈ s then s else x :: s

/-- While-loop advancing `next_non_me_ix` past preference names whose
normalisation is already used. -/
def skipUsedAux (pref : List String) (used : List String) : Nat → Nat → Nat
  | 0, ix => ix
  | fuel + 1, ix =>
    if ix < pref.length then
      if normName (pref.getD ix "") ∈ used then skipUsedAux pref used fuel (ix + 1)
      else ix
    else ix

def skipUsed (pref : List String) (used : List String) (ix : Nat) : Nat :=
  skipUsedAux pref used (pref.length + 1) ix

/-- State of the assignment loop: mapping, used names, preference index. -/
abbrev AttrState := List (String × String) × List String × Nat

/-- One step of the remaining-keys loop of `_first_appearance_mapping`
(lines 803-833). -/
def assignStep (pref_non_me : List String) (st : AttrState)
    (p : Nat × TranscriptBlock) : AttrState :=
  let mapping := st.1
  let used := st.2.1
  let ix := st.2.2
  let key := speakerKey p.2 p.1
  if (mapping.lookup key).isSome then st
  else if normName (p.2.source.getD "") ∈ selfSourceTags then
    (dictSet key MY_CANONICAL_NAME mapping, setAdd (normName MY_CANONICAL_NAME) used, ix)
  else
    let txt : String := ⟨stripL (p.2.text.getD "").data⟩
    let inlineTry : Option String :=
      match inlineNameMatch txt.data with
      | some g => if ¬ isMe g then some (⟨stripL g.data⟩ : String) else none
      | none => none
    match inlineTry with
    | some guessed =>
      (dictSet key guessed mapping, setAdd (normName guessed) used, ix)
    | none =>
      let ix' := skipUsed pref_non_me used ix
      if ix' < pref_non_me.length then
        let cand := pref_non_me.getD ix' ""
        (dictSet key cand mapping, setAdd (normName cand) used, ix' + 1)
      else
        let anon := (mapping.map Prod.snd).countP (fun v => v.startsWith "Speaker ")
        (dictSet key ("Speaker " ++ (anon + 1).repr) mapping, used, ix')

/-- Explicit-label seeding step of `_first_appearance_mapping` (lines
787-792). -/
def explicitStep (quill_title meeting_title : Option String)
    (st : List (String × String) × List String) (p : Nat × TranscriptBlock) :
    List (String × String) × List String :=
  let key := speakerKey p.2 p.1
  match extractExplicitLabel p.2 with
  | some e =>
    if ¬ looksLikeTitleFragment e quill_title meeting_title then
      (dictSet key e st.1, setAdd (normName e) st.2)
    else st
  | none => st

/-- Manual-override merge step of `_first_appearance_mapping` (lines
794-798). -/
def overrideStep (st : List (String × String) × List String)
    (kv : String × String) : List (String × String) × List String :=
  if (st.1.lookup kv.1).isNone ∧ kv.2 ≠ "" then
    (dictSet kv.1 kv.2 st.1, setAdd (normName kv.2) st.2)
  else st

/-- Model of `_first_appearance_mapping`. -/
def firstAppearanceMapping (blocks : List TranscriptBlock)
    (pref_names : List String) (overrides : List (String × String))
    (quill_title meeting_title : Option String) : List (String × String) :=
  let init : List (String × String) × List String :=
    match pickMeSpeakerId blocks with
    | some sid =>
      ([("id:" ++ sid, MY_CANONICAL_NAME)], [normName MY_CANONICAL_NAME])
    | none => ([], [])
  let st1 := blocks.enum.foldl (explicitStep quill_title meeting_title) init
  let st2 := overrides.foldl overrideStep st1
  let pref_non_me := pref_names.filter (fun n => ¬ isMe n)
  let st3 := blocks.enum.foldl (assignStep pref_non_me) (st2.1, st2.2, 0)
  st3.1.map (fun kv => if isMe kv.2 then (kv.1, MY_CANONICAL_NAME) else kv)

/-! ### Bounds for the title scorer -/

theorem sequenceRatio_nonneg (a b : String) : 0 ≤ sequenceRatio a b :=
  sequenceRatioL_nonneg a.data b.data

theorem sequenceRatio_le_one (a b : String) : sequenceRatio a b ≤ 1 :=
  sequenceRatioL_le_one a.data b.data

theorem ccsMeetingPair_bounds (ca cb : TitleComponents) :
    0 ≤ (ccsMeetingPair ca cb).1 ∧
    (ccsMeetingPair ca cb).1 ≤ (ccsMeetingPair ca cb).2 := by
  unfold ccsMeetingPair
  split_ifs <;> norm_num

theorem jaccard_bounds (pa pb : Finset String) :
    0 ≤ (if 0 < (pa ∪ pb).card then
        ((pa ∩ pb).card : ℚ) / ((pa ∪ pb).card : ℚ) else 0) ∧
    (if 0 < (pa ∪ pb).card then
        ((pa ∩ pb).card : ℚ) / ((pa ∪ pb).card : ℚ) else 0) ≤ 1 := by
  by_cases hun : 0 < (pa ∪ pb).card
  · simp only [hun, if_true]
    have hcard : (pa ∩ pb).card ≤ (pa ∪ pb).card :=
      Finset.card_le_card Finset.inter_subset_union
    have h4 : (0 : ℚ) < ((pa ∪ pb).card : ℚ) := by exact_mod_cast hun
    constructor
    · positivity
    · rw [div_le_one h4]
      exact_mod_cast hcard
  · simp only [hun, if_false]
    norm_num

theorem ccsParticipantsPair_bounds (ca cb : TitleComponents) :
    0 ≤ (ccsParticipantsPair ca cb).1 ∧
    (ccsParticipantsPair ca cb).1 ≤ (ccsParticipantsPair ca cb).2 := by
  unfold ccsParticipantsPair
  dsimp only
  split_ifs with h1 h2 h3
  · set pa := ca.participants.toFinset
    set pb := cb.participants.toFinset
    have h4 : (0 : ℚ) < ((pa ∪ pb).card : ℚ) := by exact_mod_cast h3
    have hcard : (pa ∩ pb).card ≤ (pa ∪ pb).card :=
      Finset.card_le_card Finset.inter_subset_union
    have hle : ((pa ∩ pb).card : ℚ) / ((pa ∪ pb).card : ℚ) ≤ 1 := by
      rw [div_le_one h4]
      exact_mod_cast hcard
    have hge : (0 : ℚ) ≤ ((pa ∩ pb).card : ℚ) / ((pa ∪ pb).card : ℚ) := by positivity
    constructor <;> nlinarith
  · dsimp only
    norm_num
  · dsimp only
    norm_num
  · dsimp only
    norm_num

theorem ccsTopicPair_bounds (ca cb : TitleComponents) :
    0 ≤ (ccsTopicPair ca cb).1 ∧ (ccsTopicPair ca cb).1 ≤ (ccsTopicPair ca cb).2 := by
  unfold ccsTopicPair
  have h2 := sequenceRatio_nonneg (ca.topic.getD "") (cb.topic.getD "")
  have h3 := sequenceRatio_le_one (ca.topic.getD "") (cb.topic.getD "")
  split_ifs with h1
  · constructor <;> [positivity; nlinarith]
  · norm_num

theorem calculate_component_similarity_le_one (ca cb : TitleComponents) :
    calculate_component_similarity ca cb ≤ 1 := by
  unfold calculate_component_similarity
  obtain ⟨a1, b1⟩ := ccsMeetingPair_bounds ca cb
  obtain ⟨a2, b2⟩ := ccsParticipantsPair_bounds ca cb
  obtain ⟨a3, b3⟩ := ccsTopicPair_bounds ca cb
  simp only
  split_ifs with h
  · rw [div_le_one h]
    linarith
  · norm_num

theorem enhanced_title_matching_le_one (a b : String) :
    enhanced_title_matching a b ≤ 1 := by
  unfold enhanced_title_matching
  dsimp only
  split_ifs with h
  · exact min_le_left _ _
  · exact calculate_component_similarity_le_one _ _

/-- Reflexivity of `title_similarity` on titles with a non-empty
normalisation. -/
theorem title_similarity_self (t : String) (h : normalize_title t ≠ "") :
    title_similarity t t = 1 := by
  unfold title_similarity
  simp only [h, or_self, if_false, sequenceRatio_self]
  exact max_eq_left (enhanced_title_matching_le_one _ _)

/-! ### Claim-modelled definitions

Each definition in this block follows the wording of the specification, for
comparison against the source-derived definitions above. -/

/-- Modelled from the spec (§4.2): candidate midpoint is the average of the
bounds when both are present, else whichever single bound exists, else the
window centre. -/
def claimTimeMid (center : Int) (start end_ : Option Int) : Int :=
  match start, end_ with
  | some s, some e => Int.fdiv (s + e) 2
  | some s, none => s
  | none, some e => e
  | none, none => center

/-- Modelled from the spec (§4.2): time score for a given midpoint. -/
def claimTimeScore (center lo hi : Int) (mid : Int) : ℚ :=
  let span : ℚ := ((max 1 (hi - lo) : Int) : ℚ)
  max 0 (1 - ((|mid - center| : Int) : ℚ) / span)

/-- Modelled from the spec (C4): candidates are fetched from a window of the
configured width (36 hours) centred on the pending meeting's day, or on the
explicit quill start/end midpoint when such bounds are given. -/
def claimFetchWindow (pd : PendingRecord) : Option (Int × Int) :=
  match parseDateYMD pd.meeting_date with
  | none => none
  | some ymd =>
    let width := WINDOW_HOURS * 60 * 60 * 1000
    let center :=
      match pd.quill_start_ms, pd.quill_end_ms with
      | some a, some b => Int.fdiv (a + b) 2
      | some a, none => a
      | none, some b => b
      | none, none => dayNoonMs ymd
    some (center - Int.fdiv width 2, center + Int.fdiv width 2)

/-- Modelled from the spec (C5): skip exactly the candidates with zero fuzzy
token overlap, only when ≥ 2 participants are desired and no snippet is
supplied. -/
def claimPrefilterSkips (desired_participants : List String)
    (transcript_snippet : Option String) (cand_parts : List String) : Bool :=
  ¬ truthyS transcript_snippet && ¬ desired_participants.isEmpty &&
    2 ≤ desired_participants.length &&
    participant_overlap_fuzzy desired_participants cand_parts = 0

/-- Modelled from the spec (C1, §4.3): composite formula when a transcript
snippet is supplied — re-scaled weights `0.2·w_overlap`, `0.2·w_title`,
`0.5·w_time`, transcript weight `0.60`, plus the additive adjustments. -/
def claimCompositeWithSnippet (session_type meeting_date : String)
    (needle_title : Option String) (desired_participants : List String)
    (center lo hi : Int) (m : MeetingRow)
    (contact : Option (String → List String)) (s : String) : ℚ :=
  let w := weightTable session_type
  let db_parts := derive_db_participants contact m
  let desired := stripFilterDesired desired_participants
  let adj := setAdjust session_type desired db_parts
  ((0.2 : ℚ) * w.overlap) * participant_overlap_fuzzy desired db_parts +
    ((0.2 : ℚ) * w.title) *
      title_similarity (pyOrEmpty needle_title) (pyOrEmpty m.title) +
    ((0.5 : ℚ) * w.time) * timeScoreOf center lo hi m +
    (0.60 : ℚ) * transcriptScoreOf (some s) m +
    sameDayBonusOf meeting_date m.start + adj.1 - adj.2 -
    groupSizePenaltyOf session_type db_parts

/-- Modelled from the spec (C1, §4.3): composite formula without a snippet —
plain weight-table weights plus the additive adjustments. -/
def claimCompositeNoSnippet (session_type meeting_date : String)
    (needle_title : Option String) (desired_participants : List String)
    (center lo hi : Int) (m : MeetingRow)
    (contact : Option (String → List String)) : ℚ :=
  let w := weightTable session_type
  let db_parts := derive_db_participants contact m
  let desired := stripFilterDesired desired_participants
  let adj := setAdjust session_type desired db_parts
  w.overlap * participant_overlap_fuzzy desired db_parts +
    w.title * title_similarity (pyOrEmpty needle_title) (pyOrEmpty m.title) +
    w.time * timeScoreOf center lo hi m +
    sameDayBonusOf meeting_date m.start + adj.1 - adj.2 -
    groupSizePenaltyOf session_type db_parts

/-! ### Support lemmas for the fetch-window and cleanup claims -/

theorem mem_insertByStart (d x : DbMeeting) (l : List DbMeeting) :
    x ∈ insertByStart d l ↔ x = d ∨ x ∈ l := by
  induction l with
  | nil => simp [insertByStart]
  | cons y ys ih =>
    unfold insertByStart
    split_ifs <;> simp only [List.mem_cons, ih] <;> tauto

theorem length_insertByStart (d : DbMeeting) (l : List DbMeeting) :
    (insertByStart d l).length = l.length + 1 := by
  induction l with
  | nil => rfl
  | cons y ys ih =>
    unfold insertByStart
    split_ifs <;> simp [ih]

theorem mem_sortFold (l : List DbMeeting) (acc : List DbMeeting) (x : DbMeeting) :
    x ∈ l.foldl (fun acc d => insertByStart d acc) acc ↔ x ∈ acc ∨ x ∈ l := by
  induction l generalizing acc with
  | nil => simp
  | cons y ys ih =>
    simp only [List.foldl_cons, ih, mem_insertByStart, List.mem_cons]
    tauto

theorem length_sortFold (l acc : List DbMeeting) :
    (l.foldl (fun acc d => insertByStart d acc) acc).length =
      acc.length + l.length := by
  induction l generalizing acc with
  | nil => simp
  | cons y ys ih =>
    simp only [List.foldl_cons, ih, length_insertByStart, List.length_cons]
    omega

theorem mem_sortByStart (x : DbMeeting) (l : List DbMeeting) :
    x ∈ sortByStart l ↔ x ∈ l := by
  unfold sortByStart
  simp [mem_sortFold]

theorem length_sortByStart (l : List DbMeeting) :
    (sortByStart l).length = l.length := by
  unfold sortByStart
  simp [length_sortFold]

theorem charReplace_self (a : Char) (l : List Char) : charReplace a a l = l := by
  unfold charReplace
  induction l with
  | nil => rfl
  | cons c cs ih =>
    simp only [List.map_cons, ih]
    split_ifs with h
    · simp [h]
    · rfl

theorem charReplace_of_not_mem (a b : Char) (l : List Char) (h : a ∉ l) :
    charReplace a b l = l := by
  unfold charReplace
  induction l with
  | nil => rfl
  | cons c cs ih =>
    simp only [List.mem_cons, not_or] at h
    simp only [List.map_cons]
    rw [if_neg (fun hc => h.1 hc.symm), ih h.2]

theorem mem_of_mem_collapseWSAux (c : Char) :
    ∀ (l : List Char) (b : Bool), c ∈ collapseWSAux l b →
      c ∈ l ∨ c = Char.ofNat 32 := by
  intro l
  induction l with
  | nil => intro b h; simp [collapseWSAux] at h
  | cons d ds ih =>
    intro b h
    unfold collapseWSAux at h
    by_cases hws : isWS d = true
    · cases b with
      | true =>
        simp only [hws, if_true] at h
        rcases ih true h with h2 | h2
        · exact Or.inl (List.mem_cons_of_mem _ h2)
        · exact Or.inr h2
      | false =>
        simp only [hws, if_true, Bool.false_eq_true, if_false] at h
        rcases List.mem_cons.mp h with h2 | h2
        · exact Or.inr h2
        · rcases ih true h2 with h3 | h3
          · exact Or.inl (List.mem_cons_of_mem _ h3)
          · exact Or.inr h3
    · simp only [hws, Bool.false_eq_true, if_false] at h
      rcases List.mem_cons.mp h with h2 | h2
      · exact Or.inl (List.mem_cons.mpr (Or.inl h2))
      · rcases ih false h2 with h3 | h3
        · exact Or.inl (List.mem_cons_of_mem _ h3)
        · exact Or.inr h3

/-! ### Concrete inputs used by the claim theorems -/

/-- Candidate with only an end bound (start absent). -/
def rowEndOnly : MeetingRow :=
  { id := "m6", title := none, participants := none,
    speakersNames := none, start := none, end_ := some 50,
    audio_transcript := none, audioBlocks := none }

/-- Candidate on 2024-03-10 whose participants exactly match a two-person
desired roster. -/
def rowExactPair : MeetingRow :=
  { id := "m1", title := none, participants := some "Alice, Bob",
    speakersNames := none, start := some 1710072000000, end_ := none,
    audio_transcript := some "x", audioBlocks := some [] }

/-- Candidate far from the window with participants disjoint from a
four-person desired roster. -/
def rowDisjoint : MeetingRow :=
  { id := "m2", title := none, participants := some "Zz",
    speakersNames := none, start := some 1709553600000, end_ := none,
    audio_transcript := some "x", audioBlocks := some [] }

/-- Pending record for 2024-03-10 carrying explicit quill bounds about ten
days after the meeting date. -/
def pendingQuillFar : PendingRecord :=
  { meeting_date := "2024-03-10", meeting_title := some "T", session_type := none,
    participants := none, quill_meeting_id := none,
    quill_start_ms := some 1710900000000, quill_end_ms := some 1710907200000,
    quill_title := none, transcript_snippet := none }

/-- Stored meeting lying inside the window claimed by C4 (centred on the
quill midpoint) but outside the day window the code actually queries. -/
def quillFarRow : DbMeeting :=
  { id := "far", title := some "T", participants := none, speakersNames := none,
    start := some 1710900000000, end_ := some 1710907200000,
    audio_transcript := some "blob", audioBlocks := some [], deleteDate := none }

def quillFarStore : DbStore :=
  { dbExists := true, meetings := [quillFarRow], contactSpeakers := fun _ => [],
    speakersCol := false }

/-- Stored meeting on 2024-03-10, inside the day window. -/
def dayRow : DbMeeting :=
  { id := "day", title := some "T", participants := none, speakersNames := none,
    start := some 1710072000000, end_ := some 1710075600000,
    audio_transcript := some "blob", audioBlocks := some [], deleteDate := none }

def dayStore : DbStore :=
  { dbExists := true, meetings := [dayRow], contactSpeakers := fun _ => [],
    speakersCol := false }

/-- Pending record for 2024-03-10 with no quill bounds. -/
def pendingDay : PendingRecord :=
  { meeting_date := "2024-03-10", meeting_title := some "T", session_type := none,
    participants := none, quill_meeting_id := none, quill_start_ms := none,
    quill_end_ms := none, quill_title := none, transcript_snippet := none }

/-- Desired roster and candidate roster for the pre-filter counterexample:
the single candidate name shares a token with a desired name (non-zero fuzzy
overlap) but no exact full-name match. -/
def c5desired : List String := ["Jane Doe", "Bob Smith"]

def c5parts : List String := ["Jane"]

/-- Record store with no meetings (the database file itself exists). -/
def emptyStore : DbStore :=
  { dbExists := true, meetings := [], contactSpeakers := fun _ => [],
    speakersCol := false }

/-- Pending record with `quill_start_ms = 0` and no `quill_end_ms`. -/
def pendingZeroStart : PendingRecord :=
  { meeting_date := "2024-03-10", meeting_title := some "X",
    session_type := none, participants := none, quill_meeting_id := none,
    quill_start_ms := some 0, quill_end_ms := none, quill_title := none,
    transcript_snippet := none }

/-! ### Claim theorems -/

/-- C3: for the pending record `pendingZeroStart` — a record whose only
unusual feature is the type-valid value `quill_start_ms = 0` with
`quill_end_ms` absent — the selector does not return the `(None, None,
diagnostics)` shape but raises `TypeError`: the guard on line 1611 tests
`is not None` while line 1613 branches on truthiness and evaluates
`int(0 or None) = int(None)`.  The spec (§7) requires the selector never to
raise, so this is a bug in the code. -/
theorem c3_selector_zero_start_crash :
    findBestCandidate emptyStore pendingZeroStart = .error .typeError := by
  rfl

/-- C6: divergence of the time midpoint for an end-only candidate.  For the
window `[0, 100]` with centre `50` and a candidate with `end = 50` and no
start, the code computes midpoint `center + end = 100` and time score `1/2`
(lines 1396-1400: Python's right-associative conditional makes the `else`
branch `center_ms + m.end`), while the claim's midpoint is the end bound
`50` with time score `1`. -/
theorem c6_end_only_midpoint_divergence :
    timeMidOf 50 rowEndOnly = 100 ∧
    timeScoreOf 50 0 100 rowEndOnly = 1/2 ∧
    claimTimeMid 50 none (some 50) = 50 ∧
    claimTimeScore 50 0 100 (claimTimeMid 50 none (some 50)) = 1 := by
  refine ⟨rfl, by norm_num [timeScoreOf, timeMidOf, rowEndOnly, pyOrIntV], rfl, ?_⟩
  norm_num [claimTimeScore, claimTimeMid]

/-- C9 counterexample: `"!!!"` is a non-empty title whose normalisation is
empty, so `title_similarity("!!!", "!!!")` is `0`, not `1.0`. -/
theorem c9_counterexample :
    title_similarity "!!!" "!!!" = 0 ∧ ("!!!" : String) ≠ "" := by
  constructor
  · rfl
  · decide

/-- C9 (amended): `title_similarity(t, t) = 1.0` for every title whose
normalisation is non-empty (and shorter than 200 characters, the bound below
which the sequence-ratio model matches CPython's autojunk-free
behaviour; the proof does not otherwise use the length bound). -/
theorem c9_title_similarity_reflexive (t : String)
    (h1 : normalize_title t ≠ "") (h2 : (normalize_title t).length < 200) :
    title_similarity t t = 1 :=
  title_similarity_self t h1

/-- C9 witness: a concrete title with non-empty normalisation. -/
theorem c9_witness : title_similarity "team sync" "team sync" = 1 :=
  c9_title_similarity_reflexive "team sync" (by decide) (by decide)

/-- C1: for every candidate and session type the composite equals the
weighted sum plus additive adjustments, with the weight table entry
re-scaled by `0.2/0.2/0.5` and transcript weight `0.60` when a (non-empty)
snippet is supplied, and used as-is when no snippet is supplied. -/
theorem c1_compute_score_composite_formula (session_type meeting_date : String)
    (needle_title : Option String) (desired_participants : List String)
    (center lo hi : Int) (m : MeetingRow)
    (contact : Option (String → List String)) (s : String) (hs : s ≠ "") :
    (computeScore session_type meeting_date needle_title desired_participants
        center lo hi m contact (some s)).1 =
      claimCompositeWithSnippet session_type meeting_date needle_title
        desired_participants center lo hi m contact s ∧
    (computeScore session_type meeting_date needle_title desired_participants
        center lo hi m contact none).1 =
      claimCompositeNoSnippet session_type meeting_date needle_title
        desired_participants center lo hi m contact := by
  have ht : truthyS (some s) = true := by simp [truthyS, hs]
  constructor
  · unfold computeScore claimCompositeWithSnippet
    simp only [ht, if_true]
    ring
  · unfold computeScore claimCompositeNoSnippet
    simp only [truthyS, Bool.false_eq_true, if_false]

/-- C1 witness: the formula at a concrete candidate and snippet. -/
theorem c1_witness :
    (computeScore "default" "" none [] 0 0 1 rowEndOnly none (some "x")).1 =
      claimCompositeWithSnippet "default" "" none [] 0 0 1 rowEndOnly none "x" ∧
    (computeScore "default" "" none [] 0 0 1 rowEndOnly none none).1 =
      claimCompositeNoSnippet "default" "" none [] 0 0 1 rowEndOnly none :=
  c1_compute_score_composite_formula "default" "" none [] 0 0 1 rowEndOnly none "x"
    (by decide)

/-- C2: when the pending record carries a non-empty explicit candidate id
and the store returns a row with transcript content at that id, the selector
returns that row with reason `"id"` — before the date is even parsed, hence
regardless of every other candidate. -/
theorem c2_id_shortcut (store : DbStore) (pd : PendingRecord) (qid : String)
    (row : MeetingRow) (hdb : store.dbExists = true)
    (hqid : pd.quill_meeting_id = some qid) (hne : qid ≠ "")
    (hfetch : getMeetingById store qid = some row)
    (haudio : truthyS row.audio_transcript = true) :
    findBestCandidate store pd = .ok (some row, some "id", []) := by
  unfold findBestCandidate
  simp [hdb, hqid, hne, hfetch, haudio]

/-- Store holding one matching transcript row, used by the C2 witness. -/
def idStoreRow : DbMeeting :=
  { id := "q1", title := some "T", participants := none, speakersNames := none,
    start := none, end_ := none, audio_transcript := some "blob",
    audioBlocks := some [], deleteDate := none }

def idStore : DbStore :=
  { dbExists := true, meetings := [idStoreRow], contactSpeakers := fun _ => [],
    speakersCol := false }

/-- Pending record naming `q1` explicitly; its date is not even a date,
which the id path never looks at. -/
def idPending : PendingRecord :=
  { meeting_date := "not-a-date", meeting_title := none, session_type := none,
    participants := none, quill_meeting_id := some "q1", quill_start_ms := none,
    quill_end_ms := none, quill_title := none, transcript_snippet := none }

/-- C2 witness: the shortcut fires on the concrete store. -/
theorem c2_witness :
    findBestCandidate idStore idPending =
      .ok (some (rowNoSpeakers idStoreRow), some "id", []) :=
  c2_id_shortcut idStore idPending "q1" (rowNoSpeakers idStoreRow) rfl rfl
    (by decide) rfl rfl

/-- C4 counterexample: for `pendingQuillFar` the claim's fetch window is
centred on the quill midpoint (width 36 h), and the stored meeting
`quillFarRow` intersects it — yet the code fetches from the day-centred
window `[1709942400000, 1710201600000]` (width 72 h, i.e. ±36 h), finds
nothing, and returns no candidate and empty diagnostics. -/
theorem c4_counterexample :
    claimFetchWindow pendingQuillFar = some (1710838800000, 1710968400000) ∧
    sqlOverlapPred 1710838800000 1710968400000 quillFarRow = true ∧
    selectorFetchWindow pendingQuillFar = some (1709942400000, 1710201600000) ∧
    findBestCandidate quillFarStore pendingQuillFar = .ok (none, none, []) := by
  exact ⟨rfl, rfl, rfl, rfl⟩

/-- C4 (amended): step 2 always fetches from the window `noon-UTC(date) ±
WINDOW_HOURS` (i.e. 2×36 h wide and centred on the meeting date, never on the
quill midpoint, which only shifts the scoring centre), and — up to the
800-row limit — the fetched rows are exactly the stored meetings that are
not deleted, have both bounds, and whose `[start, end]` interval intersects
that window. -/
theorem c4_fetch_window_day_centered (store : DbStore) (pd : PendingRecord)
    (ymd : Int × Int × Int) (hp : parseDateYMD pd.meeting_date = some ymd)
    (hlen : (store.meetings.filter (sqlOverlapPred (dayNoonMs ymd - 129600000)
      (dayNoonMs ymd + 129600000))).length ≤ 800) :
    selectorFetchWindow pd =
      some (dayNoonMs ymd - 129600000, dayNoonMs ymd + 129600000) ∧
    ∀ r : MeetingRow,
      r ∈ getMeetingsInWindow store (dayNoonMs ymd - 129600000)
          (dayNoonMs ymd + 129600000) 800 ↔
        ∃ d, d ∈ store.meetings ∧
          sqlOverlapPred (dayNoonMs ymd - 129600000)
            (dayNoonMs ymd + 129600000) d = true ∧
          r = rowNoSpeakers d := by
  constructor
  · unfold selectorFetchWindow
    rw [hp]
    simp only [Option.map_some']
    unfold local_day_bounds_ms
    norm_num [WINDOW_HOURS]
  · intro r
    unfold getMeetingsInWindow
    have hl2 : (sortByStart (store.meetings.filter
        (sqlOverlapPred (dayNoonMs ymd - 129600000)
          (dayNoonMs ymd + 129600000)))).length ≤ 800 := by
      rw [length_sortByStart]
      exact hlen
    rw [List.take_of_length_le hl2]
    simp only [List.mem_map, mem_sortByStart, List.mem_filter]
    constructor
    · rintro ⟨d, ⟨hd, hpred⟩, rfl⟩
      exact ⟨d, hd, hpred, rfl⟩
    · rintro ⟨d, hd, hpred, rfl⟩
      exact ⟨d, ⟨hd, hpred⟩, rfl⟩

/-- C4 witness: on a one-row store, the day window is returned and the row
on the meeting day is fetched. -/
theorem c4_witness :
    selectorFetchWindow pendingDay =
      some (dayNoonMs (2024, 3, 10) - 129600000, dayNoonMs (2024, 3, 10) + 129600000) ∧
    rowNoSpeakers dayRow ∈ getMeetingsInWindow dayStore
      (dayNoonMs (2024, 3, 10) - 129600000) (dayNoonMs (2024, 3, 10) + 129600000) 800 := by
  have h := c4_fetch_window_day_centered dayStore pendingDay (2024, 3, 10) rfl
    (by decide)
  exact ⟨h.1, (h.2 (rowNoSpeakers dayRow)).mpr ⟨dayRow, by decide, by decide, rfl⟩⟩

/-- C5 counterexample: with desired `["Jane Doe", "Bob Smith"]`, no snippet,
and candidate roster `["Jane"]`, the fuzzy overlap is `1/2 ≠ 0` so the claim
says the candidate is not skipped, but the code's pre-filter — which
intersects exact lowercased full names — skips it. -/
theorem c5_counterexample :
    prefilterSkips c5desired none c5parts = true ∧
    claimPrefilterSkips c5desired none c5parts = false ∧
    participant_overlap_fuzzy c5desired c5parts = 1/2 := by
  exact ⟨by decide, by decide, by decide⟩

/-- C5 (amended): the pre-filter is disabled whenever a non-empty snippet is
present; otherwise it skips a candidate exactly when the desired list is
non-empty, at least two distinct lowercased desired names exist, and the
exact lowercased name-set intersection with the candidate roster is empty —
exact full-name intersection, not fuzzy token overlap. -/
theorem c5_prefilter_exact_set (desired : List String) (snippet : Option String)
    (parts : List String) :
    (truthyS snippet = true → prefilterSkips desired snippet parts = false) ∧
    (prefilterSkips desired snippet parts = true ↔
      truthyS snippet = false ∧ desired ≠ [] ∧
      2 ≤ ((desired.map lowerStr).toFinset).card ∧
      (desired.map lowerStr).toFinset ∩ (parts.map lowerStr).toFinset = ∅) := by
  unfold prefilterSkips
  constructor
  · intro h
    exact if_neg (fun hc => hc.2 (by simp [h]))
  · split_ifs with h
    · obtain ⟨h1, h2⟩ := h
      simp only [Bool.and_eq_true, decide_eq_true_eq, Finset.card_eq_zero]
      constructor
      · rintro ⟨hz, hc⟩
        refine ⟨by simpa using h2, by simpa using h1, hc, hz⟩
      · rintro ⟨hs, hd, hc, hi⟩
        exact ⟨hi, hc⟩
    · simp only [Bool.false_eq_true, false_iff, not_and]
      intro hs hd
      rcases not_and_or.mp h with h3 | h3
      · intro _
        exact absurd (by simpa using h3) hd
      · exact absurd (by simpa using h3) (by simp [hs])

/-- C5 witness: a present snippet disables the filter on the concrete
rosters. -/
theorem c5_witness : prefilterSkips c5desired (some "we discussed x") c5parts = false :=
  (c5_prefilter_exact_set c5desired (some "we discussed x") c5parts).1 (by decide)

/-- C7 counterexample: on the snippet `"a″b"` the snippet-side cleanup
normalises the double-prime to a straight quote while the candidate-side
cleanup leaves it unchanged — the two sides are not normalised in the same
way. -/
theorem c7_counterexample :
    snippetCleanL "a″b".data ≠ candidateCleanL 3 "a″b".data ∧
    snippetCleanL "a″b".data = ['a', quoteChar, 'b'] ∧
    candidateCleanL 3 "a″b".data = "a″b".data := by
  exact ⟨by decide, by decide, by decide⟩

/-- C7 (amended): on already-stripped text containing no double-prime
character — the only quote variant the code actually rewrites — and short
enough to escape the candidate-side truncation to twice the snippet length,
the two cleanup pipelines agree: both collapse whitespace and strip
`Speaker N:` and capitalised-name labels. -/
theorem c7_cleanup_agreement (l : List Char) (h1 : dblPrimeChar ∉ l)
    (h2 : stripL l = l) (L : Nat) (h3 : l.length ≤ L * 2) :
    snippetCleanL l = candidateCleanL L l := by
  unfold snippetCleanL candidateCleanL extendedCleanL
  dsimp only
  rw [h2, List.take_of_length_le h3]
  have hq : dblPrimeChar ∉ collapseWSL l := by
    intro hmem
    rcases mem_of_mem_collapseWSAux dblPrimeChar l false
      (by simpa [collapseWSL] using hmem) with hm | hm
    · exact h1 hm
    · exact absurd hm (by decide)
  rw [charReplace_of_not_mem _ _ _ hq, charReplace_self, charReplace_self,
    charReplace_self, charReplace_self]

/-- C7 witness: the pipelines agree on a plain snippet. -/
theorem c7_witness :
    snippetCleanL "hello world".data = candidateCleanL 10 "hello world".data :=
  c7_cleanup_agreement "hello world".data (by decide) (by decide) 10 (by decide)

/-! ### Support lemmas for the speaker-map claim -/

theorem mem_of_mem_enumFrom {α : Type} (p : Nat × α) :
    ∀ (n : Nat) (l : List α), p ∈ List.enumFrom n l → p.2 ∈ l := by
  intro n l
  induction l generalizing n with
  | nil => intro h; simp [List.enumFrom] at h
  | cons a as ih =>
    intro h
    rcases List.mem_cons.mp h with h2 | h2
    · rw [h2]
      exact List.mem_cons_self _ _
    · exact List.mem_cons_of_mem _ (ih (n + 1) h2)

theorem mem_of_mem_enum {α : Type} (p : Nat × α) (l : List α)
    (h : p ∈ l.enum) : p.2 ∈ l :=
  mem_of_mem_enumFrom p 0 l h

theorem lookup_eq_none_iff (l : List (String × String)) (k : String) :
    l.lookup k = none ↔ k ∉ l.map Prod.fst := by
  induction l with
  | nil => simp
  | cons kv rest ih =>
    simp only [List.lookup, List.map_cons, List.mem_cons]
    by_cases h : k = kv.1
    · simp [h, beq_iff_eq]
    · have : (k == kv.1) = false := by simpa [beq_iff_eq] using h
      simp [this, ih, h]

theorem dictSet_fresh (k : String) (v : String) (l : List (String × String))
    (h : k ∉ l.map Prod.fst) : dictSet k v l = l ++ [(k, v)] := by
  induction l with
  | nil => rfl
  | cons kv rest ih =>
    simp only [List.map_cons, List.mem_cons, not_or] at h
    unfold dictSet
    rw [if_neg (fun he => h.1 he.symm), ih h.2]
    simp

theorem lookup_append_left (l l2 : List (String × String)) (k v : String)
    (h : l.lookup k = some v) : (l ++ l2).lookup k = some v := by
  induction l with
  | nil => simp [List.lookup] at h
  | cons kv rest ih =>
    obtain ⟨k1, v1⟩ := kv
    cases hk : k == k1 with
    | true => simpa [List.lookup, hk] using h
    | false =>
      rw [List.cons_append]
      simp only [List.lookup, hk] at h ⊢
      exact ih h

theorem mem_of_lookup_eq_some (l : List (String × String)) (k v : String)
    (h : l.lookup k = some v) : (k, v) ∈ l := by
  induction l with
  | nil => simp [List.lookup] at h
  | cons kv rest ih =>
    simp only [List.lookup] at h
    by_cases hk : (k == kv.1) = true
    · simp only [hk, if_true, Option.some.injEq] at h
      have hke : k = kv.1 := by simpa [beq_iff_eq] using hk
      have he : (k, v) = kv := by rw [hke, ← h]
      rw [he]
      exact List.mem_cons_self _ _
    · simp only [hk, Bool.false_eq_true, if_false] at h
      exact List.mem_cons_of_mem _ (ih h)

theorem eq_key_of_same_val (l : List (String × String)) (k1 k2 v : String)
    (hnd : (l.map Prod.snd).Nodup) (h1 : (k1, v) ∈ l) (h2 : (k2, v) ∈ l) :
    k1 = k2 := by
  induction l with
  | nil => simp at h1
  | cons kv rest ih =>
    simp only [List.map_cons, List.nodup_cons] at hnd
    rcases List.mem_cons.mp h1 with e1 | e1 <;> rcases List.mem_cons.mp h2 with e2 | e2
    · rw [show k1 = kv.1 from congrArg Prod.fst e1,
        show k2 = kv.1 from congrArg Prod.fst e2]
    · exact absurd (List.mem_map_of_mem Prod.snd e2)
        (by rw [show kv.2 = v from (congrArg Prod.snd e1).symm ▸ rfl] at hnd; exact hnd.1)
    · exact absurd (List.mem_map_of_mem Prod.snd e1)
        (by rw [show kv.2 = v from (congrArg Prod.snd e2).symm ▸ rfl] at hnd; exact hnd.1)
    · exact ih hnd.2 e1 e2

theorem isMe_canonical : isMe MY_CANONICAL_NAME = true := by decide

theorem isMe_of_norm_canonical (n : String)
    (h : normName n = normName MY_CANONICAL_NAME) : isMe n = true := by
  unfold isMe
  rw [h]
  decide

theorem skipUsed_eq_self (pref : List String) (used : List String) (ix : Nat)
    (hix : ix < pref.length) (hnm : normName (pref.getD ix "") ∉ used) :
    skipUsed pref used ix = ix := by
  unfold skipUsed skipUsedAux
  simp only [hix, if_true]
  rw [if_neg]
  intro hmem
  apply hnm
  simpa using hmem

theorem mem_setAdd (a x : String) (s : List String) :
    x ∈ setAdd a s ↔ x = a ∨ x ∈ s := by
  unfold setAdd
  split_ifs with h
  · constructor
    · exact Or.inr
    · rintro (rfl | hx)
      · exact h
      · exact hx
  · simp

theorem nodup_append_singleton {α : Type} [DecidableEq α] (l : List α) (a : α)
    (hl : l.Nodup) (ha : a ∉ l) : (l ++ [a]).Nodup := by
  rw [List.nodup_append]
  refine ⟨hl, List.nodup_singleton a, ?_⟩
  intro x hx hxa
  have : x = a := by simpa using hxa
  exact ha (this ▸ hx)

theorem getD_eq_getElem_of_lt (l : List String) (ix : Nat) (h : ix < l.length) :
    l.getD ix "" = l[ix] := by
  simp [List.getD_eq_getElem?_getD, List.getElem?_eq_getElem h]

/-- With no explicit labels on any block the seeding fold is the
identity. -/
theorem explicitFold_id (qt mt : Option String) :
    ∀ (ps : List (Nat × TranscriptBlock)),
      (∀ p ∈ ps, extractExplicitLabel p.2 = none) →
      ∀ st, ps.foldl (explicitStep qt mt) st = st := by
  intro ps hps
  induction ps with
  | nil => intro st; rfl
  | cons p rest ih =>
    intro st
    have hp : extractExplicitLabel p.2 = none := hps p (List.mem_cons_self _ _)
    have hstep : explicitStep qt mt st p = st := by
      unfold explicitStep
      rw [hp]
    rw [List.foldl_cons, hstep]
    exact ih (fun q hq => hps q (List.mem_cons_of_mem _ hq)) st

/-- Anchor-dependent value list of the speaker map before preference
assignment. -/
def meValues : Option String → List String
  | some _ => [MY_CANONICAL_NAME]
  | none => []

/-- Invariant of the remaining-keys loop: with no self-source tags, no
inline name prefixes, and preference names with pairwise-distinct
normalisations and enough slack, the mapping's values stay exactly the
anchor value followed by an initial segment of the preference list, its keys
stay distinct, and the anchor binding survives. -/
theorem assignFold_inv (pref : List String)
    (hprefMe : ∀ n ∈ pref, isMe n = false)
    (hnd : pref.Pairwise (fun a b => normName a ≠ normName b))
    (anchor : Option String) :
    ∀ (ps : List (Nat × TranscriptBlock)),
      (∀ p ∈ ps, normName (p.2.source.getD "") ∉ selfSourceTags) →
      (∀ p ∈ ps, inlineNameMatch (stripL (p.2.text.getD "").data) = none) →
      ∀ st : AttrState,
        st.1.map Prod.snd = meValues anchor ++ pref.take st.2.2 →
        (∀ x, x ∈ st.2.1 ↔ ∃ v ∈ st.1.map Prod.snd, x = normName v) →
        (st.1.map Prod.fst).Nodup →
        st.2.2 + ps.length ≤ pref.length →
        (∀ sid, anchor = some sid →
          st.1.lookup ("id:" ++ sid) = some MY_CANONICAL_NAME) →
        ((ps.foldl (assignStep pref) st).1.map Prod.snd =
            meValues anchor ++ pref.take (ps.foldl (assignStep pref) st).2.2) ∧
        ((ps.foldl (assignStep pref) st).1.map Prod.fst).Nodup ∧
        (∀ sid, anchor = some sid →
          (ps.foldl (assignStep pref) st).1.lookup ("id:" ++ sid) =
            some MY_CANONICAL_NAME) := by
  intro ps
  induction ps with
  | nil =>
    intro _ _ st hA hB hC hD hE
    exact ⟨hA, hC, hE⟩
  | cons p rest ih =>
    intro h3 h4 st hA hB hC hD hE
    rw [List.foldl_cons]
    by_cases hk : (st.1.lookup (speakerKey p.2 p.1)).isSome = true
    · have hstep : assignStep pref st p = st := by
        unfold assignStep
        simp [hk]
      rw [hstep]
      refine ih (fun q hq => h3 q (List.mem_cons_of_mem _ hq))
        (fun q hq => h4 q (List.mem_cons_of_mem _ hq)) st hA hB hC ?_ hE
      simp only [List.length_cons] at hD
      omega
    · have hsrc : normName (p.2.source.getD "") ∉ selfSourceTags :=
        h3 p (List.mem_cons_self _ _)
      have hinline : inlineNameMatch (stripL (p.2.text.getD "").data) = none :=
        h4 p (List.mem_cons_self _ _)
      have hix : st.2.2 < pref.length := by
        simp only [List.length_cons] at hD
        omega
      have hcandmem : pref.getD st.2.2 "" ∈ pref := by
        rw [getD_eq_getElem_of_lt _ _ hix]
        exact List.getElem_mem hix
      have hfresh : normName (pref.getD st.2.2 "") ∉ st.2.1 := by
        intro hmem
        obtain ⟨v, hv, hxv⟩ := (hB _).mp hmem
        rw [hA] at hv
        rcases List.mem_append.mp hv with hv | hv
        · cases anchor with
          | none => simp [meValues] at hv
          | some sid =>
            simp only [meValues, List.mem_singleton] at hv
            subst hv
            have hme : isMe (pref.getD st.2.2 "") = true :=
              isMe_of_norm_canonical _ hxv
            rw [hprefMe _ hcandmem] at hme
            exact Bool.false_ne_true hme
        · obtain ⟨j, hjlen, hjv⟩ := List.getElem_of_mem hv
          have hjlt : j < st.2.2 := by
            have := hjlen
            simp only [List.length_take] at this
            omega
          have hjpref : j < pref.length := by omega
          rw [List.getElem_take] at hjv
          have hne : normName (pref[j]) ≠ normName (pref[st.2.2]) :=
            (List.pairwise_iff_getElem.mp hnd) j st.2.2 hjpref hix hjlt
          apply hne
          rw [hjv]
          rw [getD_eq_getElem_of_lt _ _ hix] at hxv
          exact hxv.symm
      have hskip : skipUsed pref st.2.1 st.2.2 = st.2.2 :=
        skipUsed_eq_self _ _ _ hix hfresh
      have hnotkey : speakerKey p.2 p.1 ∉ st.1.map Prod.fst := by
        rw [← lookup_eq_none_iff]
        cases hcase : st.1.lookup (speakerKey p.2 p.1) with
        | none => rfl
        | some v => rw [hcase] at hk; simp at hk
      have hstep : assignStep pref st p =
          (st.1 ++ [(speakerKey p.2 p.1, pref.getD st.2.2 "")],
           setAdd (normName (pref.getD st.2.2 "")) st.2.1, st.2.2 + 1) := by
        unfold assignStep
        simp only [hk, Bool.false_eq_true, if_false, hsrc, hinline, hskip, hix,
          if_true, dite_eq_ite]
        rw [dictSet_fresh _ _ _ hnotkey]
      rw [hstep]
      set cand := pref.getD st.2.2 "" with hcand
      have hA2 : ((st.1 ++ [(speakerKey p.2 p.1, cand)]).map Prod.snd) =
          meValues anchor ++ pref.take (st.2.2 + 1) := by
        rw [List.map_append, hA, List.take_succ]
        simp only [List.map_cons, List.map_nil]
        rw [List.getElem?_eq_getElem hix]
        simp only [Option.toList_some]
        rw [List.append_assoc]
        congr 2
        rw [hcand, getD_eq_getElem_of_lt _ _ hix]
      have hB2 : ∀ x, x ∈ setAdd (normName cand) st.2.1 ↔
          ∃ v ∈ (st.1 ++ [(speakerKey p.2 p.1, cand)]).map Prod.snd,
            x = normName v := by
        intro x
        rw [mem_setAdd, hB x]
        simp only [List.map_append, List.map_cons, List.map_nil, List.mem_append,
          List.mem_singleton]
        constructor
        · rintro (rfl | ⟨v, hv, rfl⟩)
          · exact ⟨cand, Or.inr rfl, rfl⟩
          · exact ⟨v, Or.inl hv, rfl⟩
        · rintro ⟨v, hv | hv, rfl⟩
          · exact Or.inr ⟨v, hv, rfl⟩
          · subst hv
            exact Or.inl rfl
      have hC2 : ((st.1 ++ [(speakerKey p.2 p.1, cand)]).map Prod.fst).Nodup := by
        rw [List.map_append]
        exact nodup_append_singleton _ _ hC hnotkey
      have hE2 : ∀ sid, anchor = some sid →
          (st.1 ++ [(speakerKey p.2 p.1, cand)]).lookup ("id:" ++ sid) =
            some MY_CANONICAL_NAME := by
        intro sid hsid
        exact lookup_append_left _ _ _ _ (hE sid hsid)
      refine ih (fun q hq => h3 q (List.mem_cons_of_mem _ hq))
        (fun q hq => h4 q (List.mem_cons_of_mem _ hq))
        (st.1 ++ [(speakerKey p.2 p.1, cand)],
          setAdd (normName cand) st.2.1, st.2.2 + 1) hA2 hB2 hC2 ?_ hE2
      simp only [List.length_cons] at hD
      show st.2.2 + 1 + rest.length ≤ pref.length
      omega

/-- Canonicalisation is the identity when every me-ish value already is the
canonical name. -/
theorem canonical_map_id (l : List (String × String))
    (h : ∀ kv ∈ l, isMe kv.2 = true → kv.2 = MY_CANONICAL_NAME) :
    l.map (fun kv => if isMe kv.2 then (kv.1, MY_CANONICAL_NAME) else kv) = l := by
  induction l with
  | nil => rfl
  | cons kv rest ih =>
    simp only [List.map_cons]
    rw [ih (fun q hq => h q (List.mem_cons_of_mem _ hq))]
    by_cases hme : isMe kv.2 = true
    · rw [if_pos hme, ← h kv (List.mem_cons_self _ _) hme]
    · rw [if_neg (by simpa using hme)]

/-- Two blocks with distinct speaker ids but the same explicit label. -/
def blockBobA : TranscriptBlock := { speaker_id := some "A", speaker_name := some "Bob" }

def blockBobB : TranscriptBlock := { speaker_id := some "B", speaker_name := some "Bob" }

/-- C8 counterexample: two blocks carrying the same explicit label "Bob"
yield two distinct keys bound to the same non-"unknown", non-self display
name, and no key at all receives the canonical self-name. -/
theorem c8_counterexample :
    firstAppearanceMapping [blockBobA, blockBobB] [] [] none none =
      [("id:A", "Bob"), ("id:B", "Bob")] ∧
    ("id:A" : String) ≠ "id:B" ∧
    ("Bob" : String) ≠ MY_CANONICAL_NAME ∧
    ("Bob" : String) ≠ "unknown" ∧
    (∀ kv ∈ firstAppearanceMapping [blockBobA, blockBobB] [] [] none none,
      kv.2 ≠ MY_CANONICAL_NAME) := by
  refine ⟨by decide, by decide, by decide, by decide, by decide⟩

/-- C8 (amended): duplicates are possible in general (see the
counterexample), but when no block carries an explicit label, a self source
tag, or an inline `Name:` prefix, no overrides are given, and the non-self
preference names have pairwise-distinct normalisations and at least as many
entries as there are blocks, the resulting SpeakerMap is injective — no two
distinct keys share a display name — and binds the canonical self-name
exactly at the anchor key produced by `_pick_me_speaker_id`, when one
exists. -/
theorem c8_injective_under_defaults (blocks : List TranscriptBlock)
    (pref_names : List String) (quill_title meeting_title : Option String)
    (h1 : ∀ b ∈ blocks, extractExplicitLabel b = none)
    (h3 : ∀ b ∈ blocks, normName (b.source.getD "") ∉ selfSourceTags)
    (h4 : ∀ b ∈ blocks, inlineNameMatch (stripL (b.text.getD "").data) = none)
    (h5 : (pref_names.filter (fun n => ¬ isMe n)).Pairwise
      (fun a b => normName a ≠ normName b))
    (h6 : blocks.length ≤ (pref_names.filter (fun n => ¬ isMe n)).length) :
    (∀ k1 k2 v,
      (firstAppearanceMapping blocks pref_names [] quill_title meeting_title).lookup
        k1 = some v →
      (firstAppearanceMapping blocks pref_names [] quill_title meeting_title).lookup
        k2 = some v → k1 = k2) ∧
    (∀ k,
      (firstAppearanceMapping blocks pref_names [] quill_title meeting_title).lookup
        k = some MY_CANONICAL_NAME →
      ∃ sid, pickMeSpeakerId blocks = some sid ∧ k = "id:" ++ sid) ∧
    (∀ sid, pickMeSpeakerId blocks = some sid →
      (firstAppearanceMapping blocks pref_names [] quill_title meeting_title).lookup
        ("id:" ++ sid) = some MY_CANONICAL_NAME) := by
  set pref := pref_names.filter (fun n => ¬ isMe n) with hpref
  have hprefMe : ∀ n ∈ pref, isMe n = false := by
    intro n hn
    have := (List.mem_filter.mp hn).2
    simpa using this
  have hMEpref : MY_CANONICAL_NAME ∉ pref := by
    intro hmem
    have := hprefMe _ hmem
    rw [isMe_canonical] at this
    exact absurd this (by decide)
  have henum3 : ∀ p ∈ blocks.enum, normName (p.2.source.getD "") ∉ selfSourceTags :=
    fun p hp => h3 p.2 (mem_of_mem_enum p blocks hp)
  have henum4 : ∀ p ∈ blocks.enum,
      inlineNameMatch (stripL (p.2.text.getD "").data) = none :=
    fun p hp => h4 p.2 (mem_of_mem_enum p blocks hp)
  have henum1 : ∀ p ∈ blocks.enum, extractExplicitLabel p.2 = none :=
    fun p hp => h1 p.2 (mem_of_mem_enum p blocks hp)
  have hlen : blocks.enum.length = blocks.length := List.enum_length
  -- unfold the pipeline with empty overrides and no explicit labels
  have hmain : ∀ (init : List (String × String) × List String),
      init = (match pickMeSpeakerId blocks with
        | some sid => ([("id:" ++ sid, MY_CANONICAL_NAME)],
            [normName MY_CANONICAL_NAME])
        | none => ([], [])) →
      firstAppearanceMapping blocks pref_names [] quill_title meeting_title =
        (blocks.enum.foldl (assignStep pref) (init.1, init.2, 0)).1.map
          (fun kv => if isMe kv.2 then (kv.1, MY_CANONICAL_NAME) else kv) := by
    intro init hinit
    unfold firstAppearanceMapping
    dsimp only
    rw [explicitFold_id quill_title meeting_title blocks.enum henum1]
    rw [← hpref, ← hinit]
    rw [List.foldl_nil]
  obtain ⟨init, hinit⟩ : ∃ init, init = (match pickMeSpeakerId blocks with
      | some sid => ([("id:" ++ sid, MY_CANONICAL_NAME)],
          [normName MY_CANONICAL_NAME])
      | none => ([], [])) := ⟨_, rfl⟩
  have hmap := hmain init hinit
  -- initial invariants, by cases on the anchor
  have hinitA : init.1.map Prod.snd =
      meValues (pickMeSpeakerId blocks) ++ pref.take 0 := by
    cases ha : pickMeSpeakerId blocks <;> rw [ha] at hinit <;>
      simp [hinit, meValues]
  have hinitB : ∀ x, x ∈ init.2 ↔ ∃ v ∈ init.1.map Prod.snd, x = normName v := by
    cases ha : pickMeSpeakerId blocks <;> rw [ha] at hinit <;> intro x <;>
      simp [hinit]
  have hinitC : (init.1.map Prod.fst).Nodup := by
    cases ha : pickMeSpeakerId blocks <;> rw [ha] at hinit <;> simp [hinit]
  have hinitD : (0 : Nat) + blocks.enum.length ≤ pref.length := by
    rw [hlen]
    omega
  have hinitE : ∀ sid, pickMeSpeakerId blocks = some sid →
      init.1.lookup ("id:" ++ sid) = some MY_CANONICAL_NAME := by
    intro sid hsid
    rw [hsid] at hinit
    simp [hinit, List.lookup]
  obtain ⟨hA, hC, hE⟩ := assignFold_inv pref hprefMe h5 (pickMeSpeakerId blocks)
    blocks.enum henum3 henum4 (init.1, init.2, 0) hinitA hinitB hinitC hinitD hinitE
  set r := blocks.enum.foldl (assignStep pref) (init.1, init.2, 0) with hr
  -- the values of the computed map
  have hvalsMe : ∀ kv ∈ r.1, isMe kv.2 = true → kv.2 = MY_CANONICAL_NAME := by
    intro kv hkv hme
    have hv : kv.2 ∈ r.1.map Prod.snd := List.mem_map_of_mem Prod.snd hkv
    rw [hA] at hv
    rcases List.mem_append.mp hv with hv | hv
    · cases ha : pickMeSpeakerId blocks with
      | none => rw [ha] at hv; simp [meValues] at hv
      | some sid =>
        rw [ha] at hv
        simpa [meValues] using hv
    · have hp : kv.2 ∈ pref := (List.take_sublist _ _).subset hv
      rw [hprefMe _ hp] at hme
      exact absurd hme (by decide)
  have hcanon := canonical_map_id r.1 hvalsMe
  rw [hmap, hcanon]
  -- values are pairwise distinct
  have hndv : (r.1.map Prod.snd).Nodup := by
    rw [hA]
    have hndp : pref.Nodup :=
      (List.Pairwise.imp (fun hab => fun he => hab (by rw [he]))) h5
    have htake : (pref.take r.2.2).Nodup := hndp.sublist (List.take_sublist _ _)
    have hmeV : (meValues (pickMeSpeakerId blocks)).Nodup := by
      cases pickMeSpeakerId blocks <;> simp [meValues]
    refine (List.nodup_append).mpr ⟨hmeV, htake, ?_⟩
    intro x hx hx2
    have hxME : x = MY_CANONICAL_NAME := by
      cases ha : pickMeSpeakerId blocks with
      | none => rw [ha] at hx; simp [meValues] at hx
      | some sid => rw [ha] at hx; simpa [meValues] using hx
    have : x ∈ pref := (List.take_sublist _ _).subset hx2
    rw [hxME] at this
    exact hMEpref this
  refine ⟨?_, ?_, ?_⟩
  · intro k1 k2 v hl1 hl2
    exact eq_key_of_same_val r.1 k1 k2 v hndv (mem_of_lookup_eq_some _ _ _ hl1)
      (mem_of_lookup_eq_some _ _ _ hl2)
  · intro k hk
    have hmem : (k, MY_CANONICAL_NAME) ∈ r.1 := mem_of_lookup_eq_some _ _ _ hk
    have hv : MY_CANONICAL_NAME ∈ r.1.map Prod.snd :=
      List.mem_map_of_mem Prod.snd hmem
    rw [hA] at hv
    rcases List.mem_append.mp hv with hv | hv
    · cases ha : pickMeSpeakerId blocks with
      | none => rw [ha] at hv; simp [meValues] at hv
      | some sid =>
        refine ⟨sid, rfl, ?_⟩
        have hlook := hE sid ha
        have hmem2 : ("id:" ++ sid, MY_CANONICAL_NAME) ∈ r.1 :=
          mem_of_lookup_eq_some _ _ _ hlook
        exact eq_key_of_same_val r.1 k ("id:" ++ sid) MY_CANONICAL_NAME hndv hmem hmem2
    · have : MY_CANONICAL_NAME ∈ pref := (List.take_sublist _ _).subset hv
      exact absurd this hMEpref
  · intro sid hsid
    exact hE sid hsid

/-- C8 witness: on two blocks (one mic-tagged) with preference names
`["Your Name", "Jane Doe", "Sam Hill"]` the anchor key is bound to the
canonical self-name. -/
theorem c8_witness :
    (firstAppearanceMapping
      [{ speaker_id := some "A", source := some "mic", text := some "Hello" },
       { speaker_id := some "B", source := some "remote", text := some "Hi there" }]
      ["Your Name", "Jane Doe", "Sam Hill"] [] none none).lookup "id:A" =
      some MY_CANONICAL_NAME :=
  (c8_injective_under_defaults
    [{ speaker_id := some "A", source := some "mic", text := some "Hello" },
     { speaker_id := some "B", source := some "remote", text := some "Hi there" }]
    ["Your Name", "Jane Doe", "Sam Hill"] none none
    (by decide) (by decide) (by decide) (by decide) (by decide)).2.2 "A" (by decide)

/-- C10: the composite is not clamped to `[0, 1]`: an exact two-person
1-on-1 match starting the same local day scores `1.32 > 1`, a candidate
missing four desired participants scores `−0.35 < 0`, while every
session-type confidence threshold lies in `[0.35, 0.45]`. -/
theorem c10_composite_unclamped :
    1 < (computeScore "1-on-1" "2024-03-10" none ["Alice", "Bob"]
      1710072000000 1709942400000 1710201600000 rowExactPair none none).1 ∧
    (computeScore "default" "2024-03-10" none ["Aa Bb", "Cc Dd", "Ee Ff", "Gg Hh"]
      1710072000000 1709942400000 1710201600000 rowDisjoint none none).1 < 0 ∧
    (∀ st ∈ ["1-on-1", "internal-sync", "external-sync", "note-to-self", "default"],
      (0.35 : ℚ) ≤ confThreshold st ∧ confThreshold st ≤ 0.45) := by
  refine ⟨by decide, by decide, by decide⟩

end Quill
